import Mathlib

/-!
Workspace reconciliation of the etok operator

A shallow embedding of `pkg/controllers/workspace_controller.go` (the
workspace reconciler: phase aggregation, state backup, approval pruning, the
status chain) and of the queue engine it calls, followed by theorems about
them.

Conventions of the embedding:

* a Go function returning `(T, error)` returns a pair `T × Option Err`, the
  second component being `none` for a `nil` error;
* Go string types (`metav1.ConditionStatus`, names, reasons) are `String`;
* a Go `map[string]string` is an association list with pairwise distinct
  keys (`StringMap`), wrapped in `Option` where the source tells a `nil` map
  from an empty one;
* calls to the outside world (object store, remote storage) are answered by
  an `Env` and recorded, in order, in the `World`.
-/

namespace Etok

/-! ## Data model -/

/-- Go `map[string]string` (non-nil): association list with distinct keys. -/
abbrev StringMap := AList (fun _ : String => String)

/-- Go `strings.HasPrefix(s, pre)`. -/
def HasPrefix (s pre : String) : Bool := pre.data.isPrefixOf s.data

/-- The type `metav1.ConditionStatus`, a Go string type. -/
abbrev ConditionStatus := String

/-- The constant `metav1.ConditionTrue`. -/
def ConditionTrue : ConditionStatus := "True"

/-- The constant `metav1.ConditionFalse`. -/
def ConditionFalse : ConditionStatus := "False"

/-- The constant `metav1.ConditionUnknown`. -/
def ConditionUnknown : ConditionStatus := "Unknown"

/-- The type `metav1.Condition`, restricted to the fields the controller
reads or writes (`Type` is spelled `CondType`). -/
structure Condition where
  CondType : String
  Status : ConditionStatus
  Reason : String
  Message : String
  deriving DecidableEq, Repr

/-- Modelled from the spec: the type `v1alpha1.WorkspacePhase` is declared
outside `src/`; the spec lists the phases Ready, Initializing, Unknown, Error
and Deleting. `WorkspacePhaseNone` stands for the empty phase of a workspace
whose status was never written. -/
inductive WorkspacePhase
  | WorkspacePhaseNone
  | WorkspacePhaseReady
  | WorkspacePhaseInitializing
  | WorkspacePhaseUnknown
  | WorkspacePhaseError
  | WorkspacePhaseDeleting
  deriving DecidableEq, Repr

export WorkspacePhase (WorkspacePhaseNone WorkspacePhaseReady WorkspacePhaseInitializing
  WorkspacePhaseUnknown WorkspacePhaseError WorkspacePhaseDeleting)

/-- The type `v1alpha1.Output`. -/
structure Output where
  Key : String
  Value : String
  deriving DecidableEq, Repr

/-- The part of `v1alpha1.WorkspaceSpec` the reconciler branches on. -/
structure WorkspaceSpec where
  BackupBucket : String
  deriving DecidableEq, Repr

/-- The type `v1alpha1.WorkspaceStatus`. -/
structure WorkspaceStatus where
  Conditions : List Condition
  Phase : WorkspacePhase
  Queue : List String
  Active : String
  Outputs : List Output
  BackupSerial : Int
  deriving DecidableEq, Repr

/-- The type `v1alpha1.Workspace`: object metadata, spec and status.
`DeletionTimestamp` is `none` for a nil pointer; `Annotations` is `none` for
a nil map. -/
structure Workspace where
  Namespace : String
  Name : String
  Annotations : Option StringMap
  DeletionTimestamp : Option Nat
  Finalizers : List String
  Spec : WorkspaceSpec
  Status : WorkspaceStatus

/-- Modelled from the spec: the type `v1alpha1.RunPhase` is declared outside
`src/`; the spec lists Pending, Queued, Running, Completed and leaves the list
open, `RunPhaseOther` stands for the remaining phases. -/
inductive RunPhase
  | RunPhasePending
  | RunPhaseQueued
  | RunPhaseRunning
  | RunPhaseCompleted
  | RunPhaseOther (name : String)
  deriving DecidableEq, Repr

export RunPhase (RunPhasePending RunPhaseQueued RunPhaseRunning RunPhaseCompleted RunPhaseOther)

/-- Modelled from the spec: the command class of a run, plan or mutating. -/
inductive CommandClass
  | plan
  | mutating
  deriving DecidableEq, Repr

/-- Modelled from the spec: the type `v1alpha1.Run` is declared outside
`src/`; the fields are those the spec lists as read by the reconciler. -/
structure Run where
  Namespace : String
  Name : String
  Phase : RunPhase
  Workspace : String
  Class : CommandClass
  deriving DecidableEq, Repr

/-- The type `corev1.Secret`, with the fields the reconciler touches. -/
structure Secret where
  Namespace : String
  Name : String
  ResourceVersion : String
  OwnerReferences : List String
  Data : AList (fun _ : String => List UInt8)

/-- An object that the workspace owns besides the state secret (config map,
role, role binding, volume claim, pod), with the fields the reconciler
touches; `Phase` is the `Status.Phase` of a pod or of a volume claim. -/
structure Object where
  Kind : String
  Namespace : String
  Name : String
  OwnerReferences : List String
  Phase : String
  deriving DecidableEq, Repr

/-- Modelled from the spec: one output of the decoded state, `Value` and
`Sensitive`. -/
structure StateOutput where
  Value : String
  Sensitive : Bool
  deriving DecidableEq, Repr

/-- Modelled from the spec: the type `state` is declared outside `src/`; the
decoded state is a serial and a mapping from output name to output. -/
structure State where
  Serial : Int
  Outputs : AList (fun _ : String => StateOutput)

/-- A handle on the remote storage client, `*storage.Client`. -/
structure StorageClient where
  id : Nat
  deriving DecidableEq, Repr

/-- Go `error` values the controller tells apart, and all the others. -/
inductive Err
  | NotFound
  | ErrBucketNotExist
  | ErrObjectNotExist
  | ErrResourceUnexpectedlyDeleted
  | other (msg : String)
  deriving DecidableEq, Repr

/-- Modelled from the spec: constants and methods that the controller and the
handlers use and that are declared outside `src/` (condition types and
reasons, the approval annotation key of a run, the derived object names, the
helper `slice.ContainsString`). The development is parametric in their
values. -/
structure Decls where
  pendingReason : String
  clientCreateReason : String
  bucketNotFoundReason : String
  unexpectedErrorReason : String
  backupSuccessfulReason : String
  restoreSuccessfulReason : String
  nothingToRestoreReason : String
  cacheBoundReason : String
  cacheLostReason : String
  BackupFailureCondition : String
  RestoreFailureCondition : String
  PodFailureCondition : String
  CacheFailureCondition : String
  ApprovedAnnotationKeyPrefix : String
  ApprovedAnnotationKey : Run → String
  StateSecretName : Workspace → String
  BackupObjectName : Workspace → String
  VariablesConfigMapName : Workspace → String
  PodName : Workspace → String
  PVCName : Workspace → String
  newVariablesForWS : Workspace → Object
  newRoleForWS : Workspace → Object
  newRoleBindingForWS : Workspace → Object
  newPVCForWS : Workspace → Object
  workspacePod : Workspace → String → Except Err Object
  ContainsString : List String → String → Bool

/-! ## The outside world -/

/-- A call made to the object store or to the remote storage. -/
inductive Call
  | GetWorkspace (ns name : String)
  | UpdateWorkspace (ws : Workspace)
  | StatusUpdate (ws : Workspace)
  | ListRuns (ns : String)
  | GetSecret (ns name : String)
  | UpdateSecret (secret : Secret)
  | CreateSecret (secret : Secret)
  | GetObject (kind ns name : String)
  | CreateObject (obj : Object)
  | NewStorageClient
  | BucketAttrs (bucket : String)
  | ObjectAttrs (bucket object : String)
  | ObjectNewReader (bucket object : String)
  | ObjectRead (bucket object : String)
  | ObjectReaderClose (bucket object : String)
  | ObjectWrite (bucket object : String) (data : List UInt8)
  | ObjectWriterClose (bucket object : String)

/-- Whether a call goes to the remote storage (client creation included). -/
def Call.isStorage : Call → Bool
  | NewStorageClient => true
  | BucketAttrs _ => true
  | ObjectAttrs _ _ => true
  | ObjectNewReader _ _ => true
  | ObjectRead _ _ => true
  | ObjectReaderClose _ _ => true
  | ObjectWrite _ _ _ => true
  | ObjectWriterClose _ _ => true
  | _ => false

/-- Whether a call creates or updates an object of the object store. -/
def Call.isStoreWrite : Call → Bool
  | UpdateWorkspace _ => true
  | StatusUpdate _ => true
  | UpdateSecret _ => true
  | CreateSecret _ => true
  | CreateObject _ => true
  | _ => false

/-- The state threaded through the reconciler: the calls made so far, oldest
first, and the reconciler's mutable field `StorageClient`. -/
structure World where
  calls : List Call
  StorageClient : Option StorageClient

/-- Append a call to the record. -/
def World.record (w : World) (c : Call) : World :=
  { w with calls := w.calls ++ [c] }

/-- The answers of the outside world. An answer of the object store or of
the remote storage may depend on the calls made before it (first argument).
The library functions `SetOwnerReference`, `SetControllerReference`,
`yaml.Marshal` and `yaml.Unmarshal`, the gzip and JSON decoding of
`readState` and the message `Error()` of an error are pure. An update or a
create hands back the object as the server stored it. -/
structure Env where
  GetWorkspace : List Call → String → String → Except Err Workspace
  UpdateWorkspace : List Call → Workspace → Workspace × Option Err
  StatusUpdate : List Call → Workspace → Workspace × Option Err
  ListRuns : List Call → String → Except Err (List Run)
  GetSecret : List Call → String → String → Except Err Secret
  UpdateSecret : List Call → Secret → Secret × Option Err
  CreateSecret : List Call → Secret → Secret × Option Err
  GetObject : List Call → String → String → String → Except Err Object
  CreateObject : List Call → Object → Object × Option Err
  SetControllerReference : Workspace → Object → Except Err Object
  SetOwnerReference : Workspace → Secret → Except Err Secret
  decodeState : List UInt8 → Except Err State
  NewClient : List Call → Except Err StorageClient
  BucketAttrs : List Call → String → Option Err
  Marshal : Secret → Except Err (List UInt8)
  ObjectWrite : List Call → String → String → List UInt8 → Option Err
  ObjectWriterClose : List Call → String → String → Option Err
  ObjectAttrs : List Call → String → String → Option Err
  ObjectNewReader : List Call → String → String → Option Err
  ObjectRead : List Call → String → String → Except Err (List UInt8)
  Unmarshal : List UInt8 → Except Err Secret
  ObjectReaderClose : List Call → String → String → Option Err
  Error : Err → String

/-- The type `workspaceUpdater`: a step of the status chain. -/
abbrev workspaceUpdater := Workspace → World → (Workspace × Option Err) × World

/-! ## Conditions -/

/-- The library function `meta.SetStatusCondition`: the first condition of
the same type is overwritten in place; when there is none, the condition is
appended. -/
def SetStatusCondition : List Condition → Condition → List Condition
  | [], c => [c]
  | d :: rest, c =>
    if d.CondType = c.CondType then c :: rest else d :: SetStatusCondition rest c

/-- Modelled from the spec: the condition helpers are declared outside
`src/`; each sets exactly one condition (type, status, reason, message) of the
workspace status and touches nothing else. -/
def setCondition (ws : Workspace) (condType : String) (status : ConditionStatus)
    (reason msg : String) : Workspace :=
  { ws with Status := { ws.Status with
      Conditions := SetStatusCondition ws.Status.Conditions ⟨condType, status, reason, msg⟩ } }

/-- Modelled from the spec: the helper `backupFailure` is declared outside
`src/`; a failure surfaces as a condition with status True. -/
def backupFailure (K : Decls) (ws : Workspace) (reason msg : String) : Workspace :=
  setCondition ws K.BackupFailureCondition ConditionTrue reason msg

/-- Modelled from the spec: the helper `backupOK` is declared outside `src/`;
success is the condition with status False. -/
def backupOK (K : Decls) (ws : Workspace) (reason msg : String) : Workspace :=
  setCondition ws K.BackupFailureCondition ConditionFalse reason msg

/-- Modelled from the spec: the helper `restoreFailure` is declared outside
`src/`; a failure surfaces as a condition with status True. -/
def restoreFailure (K : Decls) (ws : Workspace) (reason msg : String) : Workspace :=
  setCondition ws K.RestoreFailureCondition ConditionTrue reason msg

/-- Modelled from the spec: the helper `restoreOK` is declared outside
`src/`; success is the condition with status False. -/
def restoreOK (K : Decls) (ws : Workspace) (reason msg : String) : Workspace :=
  setCondition ws K.RestoreFailureCondition ConditionFalse reason msg

/-! ## State backup and restore -/

/-- The block "Re-use client or create if not yet created" that opens both
`backup` and `restore`: the client of the reconciler, created and stored on
first use. -/
def storageClient (E : Env) (w : World) : Except Err StorageClient × World :=
  match w.StorageClient with
  | some c => (.ok c, w)
  | none =>
    match E.NewClient w.calls with
    | .ok c => (.ok c, { w.record Call.NewStorageClient with StorageClient := some c })
    | .error e => (.error e, w.record Call.NewStorageClient)

/-- The method `readState`: the entry `tfstate` of the secret, decompressed
and decoded. -/
def readState (E : Env) (secret : Secret) : Except Err State :=
  match secret.Data.lookup "tfstate" with
  | none => .error (Err.other "Expected key tfstate not found in state secret")
  | some data => E.decodeState data

/-- The method `backup`: the secret is marshalled and written to the backup
object; the serial is recorded on success only. -/
def backup (E : Env) (K : Decls) (ws : Workspace) (secret : Secret) (sfile : State)
    (w : World) : (Workspace × Option Err) × World :=
  match storageClient E w with
  | (.error err, w) => ((backupFailure K ws K.clientCreateReason (E.Error err), some err), w)
  | (.ok _, w) =>
    let bucket := ws.Spec.BackupBucket
    let w1 := w.record (Call.BucketAttrs bucket)
    match E.BucketAttrs w.calls bucket with
    | some err =>
      if err = Err.ErrBucketNotExist then
        ((backupFailure K ws K.bucketNotFoundReason (E.Error err), some err), w1)
      else
        ((backupFailure K ws K.unexpectedErrorReason (E.Error err), some err), w1)
    | none =>
      let object := K.BackupObjectName ws
      match E.Marshal secret with
      | .error err => ((backupFailure K ws K.unexpectedErrorReason (E.Error err), some err), w1)
      | .ok y =>
        let w2 := w1.record (Call.ObjectWrite bucket object y)
        match E.ObjectWrite w1.calls bucket object y with
        | some err =>
          ((backupFailure K ws K.unexpectedErrorReason (E.Error err), some err), w2)
        | none =>
          let w3 := w2.record (Call.ObjectWriterClose bucket object)
          match E.ObjectWriterClose w2.calls bucket object with
          | some err =>
            ((backupFailure K ws K.unexpectedErrorReason (E.Error err), some err), w3)
          | none =>
            let ws := { ws with Status := { ws.Status with BackupSerial := sfile.Serial } }
            ((backupOK K ws K.backupSuccessfulReason "State was successfully restored", none), w3)

/-- The method `restore`: the backup object, when there is one, is read and
created as a secret. -/
def restore (E : Env) (K : Decls) (ws : Workspace) (w : World) :
    (Workspace × Option Err) × World :=
  match storageClient E w with
  | (.error err, w) => ((restoreFailure K ws K.clientCreateReason (E.Error err), some err), w)
  | (.ok _, w) =>
    let bucket := ws.Spec.BackupBucket
    let w1 := w.record (Call.BucketAttrs bucket)
    match E.BucketAttrs w.calls bucket with
    | some err =>
      if err = Err.ErrBucketNotExist then
        ((restoreFailure K ws K.bucketNotFoundReason (E.Error err), some err), w1)
      else
        ((restoreFailure K ws K.unexpectedErrorReason (E.Error err), some err), w1)
    | none =>
      let object := K.BackupObjectName ws
      let w2 := w1.record (Call.ObjectAttrs bucket object)
      match E.ObjectAttrs w1.calls bucket object with
      | some err =>
        if err = Err.ErrObjectNotExist then
          ((restoreOK K ws K.nothingToRestoreReason "No backup was found to restore", none), w2)
        else
          ((restoreFailure K ws K.unexpectedErrorReason (E.Error err), some err), w2)
      | none =>
        let w3 := w2.record (Call.ObjectNewReader bucket object)
        match E.ObjectNewReader w2.calls bucket object with
        | some err =>
          ((restoreFailure K ws K.unexpectedErrorReason (E.Error err), some err), w3)
        | none =>
          let w4 := w3.record (Call.ObjectRead bucket object)
          match E.ObjectRead w3.calls bucket object with
          | .error err =>
            ((restoreFailure K ws K.unexpectedErrorReason (E.Error err), some err), w4)
          | .ok buf =>
            match E.Unmarshal buf with
            | .error err =>
              ((restoreFailure K ws K.unexpectedErrorReason (E.Error err), some err), w4)
            | .ok secret =>
              let w5 := w4.record (Call.ObjectReaderClose bucket object)
              match E.ObjectReaderClose w4.calls bucket object with
              | some err =>
                ((restoreFailure K ws K.unexpectedErrorReason (E.Error err), some err), w5)
              | none =>
                let secret := { secret with ResourceVersion := "" }
                let w6 := w5.record (Call.CreateSecret secret)
                match (E.CreateSecret w5.calls secret).2 with
                | some err =>
                  ((restoreFailure K ws K.unexpectedErrorReason (E.Error err), some err), w6)
                | none =>
                  ((restoreOK K ws K.restoreSuccessfulReason "State was successfully restored",
                    none), w6)

/-- The outputs that `manageState` builds from the decoded state, one entry
per output. Go leaves the order in which a map is ranged over open; the
embedding takes the order of the entries of the mapping. -/
def stateOutputs (state : State) : List Output :=
  state.Outputs.entries.map (fun kv => { Key := kv.1, Value := kv.2.Value })

/-- The block "Persist outputs from state file to workspace status" of
`manageState`. -/
def persistOutputs (ws : Workspace) (state : State) : Workspace :=
  if ws.Status.Outputs ≠ stateOutputs state then
    { ws with Status := { ws.Status with Outputs := stateOutputs state } }
  else ws

/-- The method `manageState`: restore when the state secret is missing and a
bucket is configured; otherwise own the secret, publish its outputs and back
it up when its serial differs from the serial of the last backup. -/
def manageState (E : Env) (K : Decls) : workspaceUpdater := fun ws w =>
  let w1 := w.record (Call.GetSecret ws.Namespace (K.StateSecretName ws))
  match E.GetSecret w.calls ws.Namespace (K.StateSecretName ws) with
  | .error err =>
    if err = Err.NotFound then
      if ws.Spec.BackupBucket ≠ "" then restore E K ws w1 else ((ws, none), w1)
    else ((ws, some err), w1)
  | .ok secret =>
    match E.SetOwnerReference ws secret with
    | .error err => ((ws, some err), w1)
    | .ok secret =>
      let w2 := w1.record (Call.UpdateSecret secret)
      match E.UpdateSecret w1.calls secret with
      | (_, some err) => ((ws, some err), w2)
      | (secret, none) =>
        match readState E secret with
        | .error err => ((ws, some err), w2)
        | .ok state =>
          let ws := persistOutputs ws state
          if ws.Spec.BackupBucket ≠ "" ∧ state.Serial ≠ ws.Status.BackupSerial then
            backup E K ws secret state w2
          else ((ws, none), w2)

/-! ## Phase aggregation -/

/-- The `for ... range ws.Status.Conditions` loop of `managePhase`, with the
local variable `phase` as accumulator: the remaining conditions and the
current candidate give the returned pair. -/
def managePhaseLoop (K : Decls) (ws : Workspace) :
    List Condition → WorkspacePhase → Workspace × Option Err
  | [], phase => ({ ws with Status := { ws.Status with Phase := phase } }, none)
  | cond :: rest, phase =>
    if cond.Status = ConditionTrue then
      ({ ws with Status := { ws.Status with Phase := WorkspacePhaseError } }, none)
    else if cond.Status = ConditionFalse then
      if cond.Reason = K.pendingReason ∧ phase ≠ WorkspacePhaseUnknown then
        managePhaseLoop K ws rest WorkspacePhaseInitializing
      else
        managePhaseLoop K ws rest phase
    else if cond.Status = ConditionUnknown then
      managePhaseLoop K ws rest WorkspacePhaseUnknown
    else
      managePhaseLoop K ws rest phase

/-- The function `managePhase`: the phase summarises the conditions. -/
def managePhase (K : Decls) (ws : Workspace) : Workspace × Option Err :=
  managePhaseLoop K ws ws.Status.Conditions WorkspacePhaseReady

/-! ## Approval pruning -/

/-- The library function `metav1.HasAnnotation`: whether the key is in the
annotations (never in a nil map). -/
def HasAnnotation (ws : Workspace) (ann : String) : Bool :=
  match ws.Annotations with
  | none => false
  | some m => decide (ann ∈ m)

/-- The body of the first loop of `pruneApprovals`, on the pair of
`hasApproval` and `annotations`: an approval sets the flag and is skipped,
any other entry is copied. -/
def copyStep (K : Decls) (acc : Bool × StringMap) (kv : (_ : String) × String) :
    Bool × StringMap :=
  if HasPrefix kv.1 K.ApprovedAnnotationKeyPrefix then (true, acc.2)
  else (acc.1, acc.2.insert kv.1 kv.2)

/-- The first loop of `pruneApprovals`: the copy of the annotations that
leaves the approvals out, together with the flag `hasApproval`. -/
def copyWithoutApprovals (K : Decls) (anns : StringMap) : Bool × StringMap :=
  anns.entries.foldl (copyStep K) (false, ∅)

/-- The body of the second loop of `pruneApprovals`: a completed run is
skipped; the approval of any other run is added again when the workspace
carries it. -/
def readdStep (K : Decls) (ws : Workspace) (annotations : StringMap) (run : Run) : StringMap :=
  if run.Phase = RunPhaseCompleted then annotations
  else if HasAnnotation ws (K.ApprovedAnnotationKey run) then
    annotations.insert (K.ApprovedAnnotationKey run) "approved"
  else annotations

/-- The second loop of `pruneApprovals`, over the listed runs. -/
def readdApprovals (K : Decls) (ws : Workspace) (runs : List Run)
    (annotations : StringMap) : StringMap :=
  runs.foldl (readdStep K ws) annotations

/-- The method `pruneApprovals`: the annotations without the approvals of
runs that are completed or gone; a nil map when there is nothing to prune. -/
def pruneApprovals (E : Env) (K : Decls) (ws : Workspace) (w : World) :
    (Option StringMap × Option Err) × World :=
  match ws.Annotations with
  | none => ((none, none), w)
  | some anns =>
    let copy := copyWithoutApprovals K anns
    if copy.1 = false then ((none, none), w)
    else
      match E.ListRuns w.calls ws.Namespace with
      | .error err => ((none, some err), w.record (Call.ListRuns ws.Namespace))
      | .ok runs =>
        ((some (readdApprovals K ws runs copy.2), none), w.record (Call.ListRuns ws.Namespace))

/-- The library function `reflect.DeepEqual` on two `map[string]string`: both
nil, or both non-nil of the same length with every entry of the first found
in the second. -/
def DeepEqualAnnotations : Option StringMap → Option StringMap → Bool
  | none, none => true
  | some a, some b =>
    a.entries.length == b.entries.length &&
      a.entries.all (fun kv => b.lookup kv.1 == some kv.2)
  | _, _ => false

/-! ## Reconcile -/

/-- The constant `metav1.FinalizerDeleteDependents`. -/
def FinalizerDeleteDependents : String := "foregroundDeletion"

/-- The library function `controllerutil.ContainsFinalizer`. -/
def ContainsFinalizer (ws : Workspace) (finalizer : String) : Bool :=
  ws.Finalizers.contains finalizer

/-- The library function `controllerutil.AddFinalizer`. -/
def AddFinalizer (ws : Workspace) (finalizer : String) : Workspace :=
  if ws.Finalizers.contains finalizer then ws
  else { ws with Finalizers := ws.Finalizers ++ [finalizer] }

/-- The method `IsZero` of `*metav1.Time`: a nil pointer or the zero time. -/
def IsZero : Option Nat → Bool
  | none => true
  | some t => t == 0

/-- The library function `client.IgnoreNotFound`. -/
def IgnoreNotFound (err : Err) : Option Err :=
  if err = Err.NotFound then none else some err

/-- The approval pruning step of `Reconcile`: `pruneApprovals`, then the
annotations of the workspace are replaced, and the workspace marked as to be
updated, when the result is not deeply equal to them. -/
def pruneStep (E : Env) (K : Decls) (ws : Workspace) (specUpdated : Bool) (w : World) :
    Except Err (Workspace × Bool) × World :=
  match pruneApprovals E K ws w with
  | ((_, some err), w) => (.error err, w)
  | ((annotations, none), w) =>
    if DeepEqualAnnotations ws.Annotations annotations = false then
      (.ok ({ ws with Annotations := annotations }, true), w)
    else (.ok (ws, specUpdated), w)

/-- The part of `Reconcile` that maintains the object itself: the finalizer
is added, the approvals are pruned, and the object is updated if either
changed it. -/
def reconcileObject (E : Env) (K : Decls) (ws : Workspace) (w : World) :
    Except Err Workspace × World :=
  let fin : Workspace × Bool :=
    if ContainsFinalizer ws FinalizerDeleteDependents = false then
      (AddFinalizer ws FinalizerDeleteDependents, true)
    else (ws, false)
  match pruneStep E K fin.1 fin.2 w with
  | (.error err, w) => (.error err, w)
  | (.ok (ws, specUpdated), w) =>
    if specUpdated then
      match E.UpdateWorkspace w.calls ws with
      | (_, some err) => (.error err, w.record (Call.UpdateWorkspace ws))
      | (stored, none) => (.ok stored, w.record (Call.UpdateWorkspace ws))
    else (.ok ws, w)

/-- The end of `Reconcile`: the steps of the status chain are called one
after the other; at the first error, and after the last step, the status is
updated. -/
def reconcileStatus (E : Env) : List workspaceUpdater → Workspace → World → Option Err × World
  | [], ws, w =>
    match (E.StatusUpdate w.calls ws).2 with
    | some err => (some err, w.record (Call.StatusUpdate ws))
    | none => (none, w.record (Call.StatusUpdate ws))
  | f :: rest, ws, w =>
    match f ws w with
    | ((ws, some err), w) =>
      match (E.StatusUpdate w.calls ws).2 with
      | some updateErr => (some updateErr, w.record (Call.StatusUpdate ws))
      | none => (some err, w.record (Call.StatusUpdate ws))
    | ((ws, none), w) => reconcileStatus E rest ws w

/-- The method `Reconcile` for the request `ns/name`; `chain` is the value of
the package variable `workspaceReconcileStatusChain`. The result is the
returned error. -/
def Reconcile (E : Env) (K : Decls) (chain : List workspaceUpdater) (ns name : String)
    (w : World) : Option Err × World :=
  match E.GetWorkspace w.calls ns name with
  | .error err => (IgnoreNotFound err, w.record (Call.GetWorkspace ns name))
  | .ok ws =>
    let w := w.record (Call.GetWorkspace ns name)
    if IsZero ws.DeletionTimestamp = false then
      if ws.Status.Phase ≠ WorkspacePhaseDeleting then
        let ws := { ws with Status := { ws.Status with Phase := WorkspacePhaseDeleting } }
        match (E.StatusUpdate w.calls ws).2 with
        | some err => (some err, w.record (Call.StatusUpdate ws))
        | none => (none, w.record (Call.StatusUpdate ws))
      else (none, w)
    else
      match reconcileObject E K ws w with
      | (.error err, w) => (some err, w)
      | (.ok ws, w) => reconcileStatus E chain ws w

/-- The steps of a chain run one after the other until one returns an error:
the workspace and error of the last step that ran. -/
def runSteps : List workspaceUpdater → Workspace → World → (Workspace × Option Err) × World
  | [], ws, w => ((ws, none), w)
  | f :: rest, ws, w =>
    match f ws w with
    | ((ws, some err), w) => ((ws, some err), w)
    | ((ws, none), w) => runSteps rest ws w

/-! ## Queue -/

/-- Modelled from the spec: whether an entry of the existing queue is kept,
that is, its run is in the run list and is not completed. -/
def queueKeeps (runs : List Run) (name : String) : Bool :=
  match runs.find? (fun r => r.Name = name) with
  | none => false
  | some r => r.Phase ≠ RunPhaseCompleted

/-- Modelled from the spec: one run of the run list is appended to the queue
when it belongs to the workspace, is of the mutating class, is not completed
and is not in the queue yet. -/
def enqueue (wsName : String) (queue : List String) (run : Run) : List String :=
  if run.Workspace = wsName ∧ run.Class = CommandClass.mutating ∧
      run.Phase ≠ RunPhaseCompleted ∧ run.Name ∉ queue then
    queue ++ [run.Name]
  else queue

/-- Modelled from the spec: the function `updateQueue` (the spec's
`computeQueue`) is declared outside `src/`. It starts from the existing
queue, drops the entries whose run is gone or completed, then appends, in the
order of the run list, the runs that `enqueue` admits. -/
def updateQueue (ws : Workspace) (runs : List Run) : List String :=
  runs.foldl (enqueue ws.Name) (ws.Status.Queue.filter (queueKeeps runs))

/-- The method `manageQueue`: the runs of the namespace are listed and the
queue recomputed. -/
def manageQueue (E : Env) : workspaceUpdater := fun ws w =>
  match E.ListRuns w.calls ws.Namespace with
  | .error err => ((ws, some err), w.record (Call.ListRuns ws.Namespace))
  | .ok runs =>
    (({ ws with Status := { ws.Status with Queue := updateQueue ws runs } }, none),
      w.record (Call.ListRuns ws.Namespace))

/-! ## Owned objects -/

/-- Modelled from the spec: the helper `podOK` is declared outside `src/`. -/
def podOK (K : Decls) (ws : Workspace) (reason msg : String) : Workspace :=
  setCondition ws K.PodFailureCondition ConditionFalse reason msg

/-- Modelled from the spec: the helper `podFailure` is declared outside
`src/`. -/
def podFailure (K : Decls) (ws : Workspace) (reason msg : String) : Workspace :=
  setCondition ws K.PodFailureCondition ConditionTrue reason msg

/-- Modelled from the spec: the helper `podUnknown` is declared outside
`src/`. -/
def podUnknown (K : Decls) (ws : Workspace) (reason msg : String) : Workspace :=
  setCondition ws K.PodFailureCondition ConditionUnknown reason msg

/-- Modelled from the spec: the helper `cacheOK` is declared outside
`src/`. -/
def cacheOK (K : Decls) (ws : Workspace) (reason msg : String) : Workspace :=
  setCondition ws K.CacheFailureCondition ConditionFalse reason msg

/-- Modelled from the spec: the helper `cacheFailure` is declared outside
`src/`. -/
def cacheFailure (K : Decls) (ws : Workspace) (reason msg : String) : Workspace :=
  setCondition ws K.CacheFailureCondition ConditionTrue reason msg

/-- The sequence "set the controller reference, then create" that the steps
apply to an object that was not found: the error of the first of the two
that fails. -/
def createOwned (E : Env) (ws : Workspace) (obj : Object) (w : World) : Option Err × World :=
  match E.SetControllerReference ws obj with
  | .error err => (some err, w)
  | .ok obj => ((E.CreateObject w.calls obj).2, w.record (Call.CreateObject obj))

/-- The method `manageVariables`: the config map of the variables is created
when it is missing. -/
def manageVariables (E : Env) (K : Decls) : workspaceUpdater := fun ws w =>
  let w1 := w.record (Call.GetObject "ConfigMap" ws.Namespace (K.VariablesConfigMapName ws))
  match E.GetObject w.calls "ConfigMap" ws.Namespace (K.VariablesConfigMapName ws) with
  | .error err =>
    if err = Err.NotFound then
      match createOwned E ws (K.newVariablesForWS ws) w1 with
      | (some err, w2) => ((ws, some err), w2)
      | (none, w2) => ((ws, none), w2)
    else ((ws, some err), w1)
  | .ok _ => ((ws, none), w1)

/-- The method `manageRBAC`: the role and the role binding are created when
they are missing. -/
def manageRBAC (E : Env) (K : Decls) : workspaceUpdater := fun ws w =>
  let w1 := w.record (Call.GetObject "Role" ws.Namespace ws.Name)
  let role : Option Err × World :=
    match E.GetObject w.calls "Role" ws.Namespace ws.Name with
    | .error err =>
      if err = Err.NotFound then createOwned E ws (K.newRoleForWS ws) w1 else (some err, w1)
    | .ok _ => (none, w1)
  match role with
  | (some err, w2) => ((ws, some err), w2)
  | (none, w2) =>
    let w3 := w2.record (Call.GetObject "RoleBinding" ws.Namespace ws.Name)
    let binding : Option Err × World :=
      match E.GetObject w2.calls "RoleBinding" ws.Namespace ws.Name with
      | .error err =>
        if err = Err.NotFound then createOwned E ws (K.newRoleBindingForWS ws) w3
        else (some err, w3)
      | .ok _ => (none, w3)
    match binding with
    | (some err, w4) => ((ws, some err), w4)
    | (none, w4) => ((ws, none), w4)

/-- The method `managePVC`: the volume claim of the cache is created when it
is missing; otherwise its phase gives the cache condition. -/
def managePVC (E : Env) (K : Decls) : workspaceUpdater := fun ws w =>
  let w1 := w.record (Call.GetObject "PersistentVolumeClaim" ws.Namespace (K.PVCName ws))
  match E.GetObject w.calls "PersistentVolumeClaim" ws.Namespace (K.PVCName ws) with
  | .error err =>
    if err = Err.NotFound then
      match createOwned E ws (K.newPVCForWS ws) w1 with
      | (some err, w2) => ((ws, some err), w2)
      | (none, w2) => ((cacheOK K ws K.pendingReason "PVC is being created", none), w2)
    else ((ws, some err), w1)
  | .ok pvc =>
    if pvc.Phase = "Bound" then
      ((cacheOK K ws K.cacheBoundReason "Cache\x27s PVC successfully bound to PV", none), w1)
    else if pvc.Phase = "Lost" then
      ((cacheFailure K ws K.cacheLostReason "Persistent volume does not exist any longer",
        none), w1)
    else if pvc.Phase = "Pending" then
      ((cacheOK K ws K.pendingReason "Cache\x27s PVC in pending state", none), w1)
    else ((ws, none), w1)

/-- The method `managePod`: the pod is created when it is missing; otherwise
its phase gives the pod condition. `image` is the field `Image` of the
reconciler. -/
def managePod (E : Env) (K : Decls) (image : String) : workspaceUpdater := fun ws w =>
  let w1 := w.record (Call.GetObject "Pod" ws.Namespace (K.PodName ws))
  match E.GetObject w.calls "Pod" ws.Namespace (K.PodName ws) with
  | .error err =>
    if err = Err.NotFound then
      match K.workspacePod ws image with
      | .error err => ((ws, some err), w1)
      | .ok pod =>
        match createOwned E ws pod w1 with
        | (some err, w2) => ((ws, some err), w2)
        | (none, w2) => ((podOK K ws K.pendingReason "Creating pod", none), w2)
    else ((ws, some err), w1)
  | .ok pod =>
    if pod.Phase = "Running" then ((podOK K ws pod.Phase "", none), w1)
    else if pod.Phase = "Pending" then
      ((podOK K ws K.pendingReason "Pod in pending phase", none), w1)
    else if pod.Phase = "Failed" then
      ((podFailure K ws pod.Phase "Pod unexpectedly failed", none), w1)
    else if pod.Phase = "Succeeded" then
      ((podFailure K ws pod.Phase "Pod unexpectedly completed", none), w1)
    else ((podUnknown K ws pod.Phase "", none), w1)

/-- The function `managePhase` as a step of the status chain. -/
def managePhaseStep (K : Decls) : workspaceUpdater := fun ws w => (managePhase K ws, w)

/-- The function `NewWorkspaceReconciler`, as it acts on the package variable
`workspaceReconcileStatusChain` (`chain` is its value before the call): the
seven steps are appended. `image` is the field `Image` of the reconciler. -/
def NewWorkspaceReconciler (E : Env) (K : Decls) (image : String)
    (chain : List workspaceUpdater) : List workspaceUpdater :=
  chain ++ [manageVariables E K, manageRBAC E K, manageState E K, managePVC E K,
    managePod E K image, manageQueue E, managePhaseStep K]

/-! ## Handlers -/

/-- The type `watch.EventType`, a Go string type. -/
abbrev EventType := String

/-- The constant `watch.Deleted`. -/
def Deleted : EventType := "DELETED"

/-- The field `Object` of a watch event as the type switch of
`workspaceHandlerWrapper` tells it: a workspace, or anything else. -/
inductive EventObject
  | workspace (ws : Workspace)
  | other

/-- The type `watch.Event` (`Type` is spelled `EvType`). -/
structure Event where
  EvType : EventType
  Object : EventObject

/-- The type `workspaceHandler`. -/
abbrev workspaceHandler := Workspace → Bool × Option Err

/-- The function `workspaceHandlerWrapper`: a deleted object is an error, a
workspace goes to the handler, anything else is passed over. -/
def workspaceHandlerWrapper (handler : workspaceHandler) : Event → Bool × Option Err :=
  fun event =>
    if event.EvType = Deleted then (false, some Err.ErrResourceUnexpectedlyDeleted)
    else
      match event.Object with
      | EventObject.workspace ws => handler ws
      | EventObject.other => (false, none)

/-- The function `IsQueued`: the condition that holds once the run is the
active run or is in the queue. -/
def IsQueued (K : Decls) (runName : String) : Event → Bool × Option Err :=
  workspaceHandlerWrapper (fun ws =>
    if ws.Status.Active = runName then (true, none)
    else if K.ContainsString ws.Status.Queue runName then (true, none)
    else (false, none))

/-- The calls recorded in `after` beyond the first `before.calls.length`:
when `after` results from `before`, the calls made in between. -/
def callsSince (before after : World) : List Call :=
  after.calls.drop before.calls.length

/-! ## Example objects

Concrete values at which the theorems below are instantiated. -/

/-- Values for the declarations that lie outside `src/`. -/
def exampleDecls : Decls where
  pendingReason := "Pending"
  clientCreateReason := "ClientCreateFailed"
  bucketNotFoundReason := "BucketNotFound"
  unexpectedErrorReason := "UnexpectedError"
  backupSuccessfulReason := "BackupSuccessful"
  restoreSuccessfulReason := "RestoreSuccessful"
  nothingToRestoreReason := "NothingToRestore"
  cacheBoundReason := "VolumeBound"
  cacheLostReason := "VolumeLost"
  BackupFailureCondition := "BackupFailure"
  RestoreFailureCondition := "RestoreFailure"
  PodFailureCondition := "PodFailure"
  CacheFailureCondition := "CacheFailure"
  ApprovedAnnotationKeyPrefix := "approvals.etok.dev"
  ApprovedAnnotationKey := fun run => "approvals.etok.dev" ++ ("/" ++ run.Name)
  StateSecretName := fun ws => "tfstate-default-" ++ ws.Name
  BackupObjectName := fun ws => ws.Namespace ++ "/" ++ ws.Name ++ ".yaml"
  VariablesConfigMapName := fun ws => ws.Name ++ "-variables"
  PodName := fun ws => "workspace-" ++ ws.Name
  PVCName := fun ws => ws.Name
  newVariablesForWS := fun ws => ⟨"ConfigMap", ws.Namespace, ws.Name ++ "-variables", [], ""⟩
  newRoleForWS := fun ws => ⟨"Role", ws.Namespace, ws.Name, [], ""⟩
  newRoleBindingForWS := fun ws => ⟨"RoleBinding", ws.Namespace, ws.Name, [], ""⟩
  newPVCForWS := fun ws => ⟨"PersistentVolumeClaim", ws.Namespace, ws.Name, [], ""⟩
  workspacePod := fun ws _ => .ok ⟨"Pod", ws.Namespace, "workspace-" ++ ws.Name, [], ""⟩
  ContainsString := fun slice s => slice.contains s

/-- The workspace `default/workspace-1`: not being deleted, finalizer set, no
annotations, backup bucket `backups`, last backup at serial 3, phase Ready,
no conditions. -/
def exampleWorkspace : Workspace where
  Namespace := "default"
  Name := "workspace-1"
  Annotations := none
  DeletionTimestamp := none
  Finalizers := [FinalizerDeleteDependents]
  Spec := { BackupBucket := "backups" }
  Status := { Conditions := [], Phase := WorkspacePhaseReady, Queue := [], Active := "",
              Outputs := [], BackupSerial := 3 }

/-- The annotations `foo: bar`. -/
def fooBar : StringMap := AList.singleton "foo" "bar"

/-- The annotations `foo: bar` and the approval of the run `run-1`. -/
def fooBarApproved : StringMap := AList.insert "approvals.etok.dev/run-1" "approved" fooBar

/-- The run `run-1` of `workspace-1`, an apply that is running. -/
def exampleRun : Run where
  Namespace := "default"
  Name := "run-1"
  Phase := RunPhaseRunning
  Workspace := "workspace-1"
  Class := CommandClass.mutating

/-- The state secret of `workspace-1`, holding some bytes under `tfstate`. -/
def exampleSecret : Secret where
  Namespace := "default"
  Name := "tfstate-default-workspace-1"
  ResourceVersion := "41"
  OwnerReferences := []
  Data := AList.singleton "tfstate" [31, 139, 8]

/-- A decoded state at serial 2, without outputs. -/
def exampleState : State where
  Serial := 2
  Outputs := ∅

/-- An outside world that holds the workspace `ws`, the runs `runs`, the
state secret `exampleSecret` (decoding to `exampleState`) and every owned
object (pod running, volume claim bound), in which every call to the object
store succeeds and no storage client can be created. -/
def exampleEnv (ws : Workspace) (runs : List Run) : Env where
  GetWorkspace := fun _ _ _ => .ok ws
  UpdateWorkspace := fun _ ws => (ws, none)
  StatusUpdate := fun _ ws => (ws, none)
  ListRuns := fun _ _ => .ok runs
  GetSecret := fun _ _ _ => .ok exampleSecret
  UpdateSecret := fun _ s => (s, none)
  CreateSecret := fun _ s => (s, none)
  GetObject := fun _ kind ns name =>
    .ok ⟨kind, ns, name, ["workspace-1"],
      if kind = "PersistentVolumeClaim" then "Bound" else "Running"⟩
  CreateObject := fun _ o => (o, none)
  SetControllerReference := fun ws o => .ok { o with OwnerReferences := [ws.Name] }
  SetOwnerReference := fun ws s => .ok { s with OwnerReferences := [ws.Name] }
  decodeState := fun _ => .ok exampleState
  NewClient := fun _ => .error (Err.other "could not find default credentials")
  BucketAttrs := fun _ _ => none
  Marshal := fun _ => .ok [97]
  ObjectWrite := fun _ _ _ _ => none
  ObjectWriterClose := fun _ _ _ => none
  ObjectAttrs := fun _ _ _ => none
  ObjectNewReader := fun _ _ _ => none
  ObjectRead := fun _ _ _ => .ok [97]
  Unmarshal := fun _ => .ok exampleSecret
  ObjectReaderClose := fun _ _ _ => none
  Error := fun err => match err with
    | Err.other msg => msg
    | _ => "error"

/-- The workspace `default/workspace-1` without backup bucket, whose stored
status carries a True restore condition. -/
def failedWorkspace : Workspace :=
  { exampleWorkspace with
    Spec := { BackupBucket := "" }
    Status := { exampleWorkspace.Status with
      Conditions := [⟨"RestoreFailure", ConditionTrue, "BucketNotFound", "no such bucket"⟩] } }

/-- The outside world of `exampleEnv` in which the look-up of the state
secret fails with an error other than not-found. -/
def secretErrorEnv (ws : Workspace) : Env :=
  { exampleEnv ws [] with GetSecret := fun _ _ _ => .error (Err.other "connection refused") }

/-- A run of `workspace-1` with the given name, class and phase. -/
def runOf (name : String) (cls : CommandClass) (phase : RunPhase) : Run where
  Namespace := "default"
  Name := name
  Phase := phase
  Workspace := "workspace-1"
  Class := cls

/-- The workspace `default/workspace-1` with the given queue. -/
def queuedWorkspace (queue : List String) : Workspace :=
  { exampleWorkspace with Status := { exampleWorkspace.Status with Queue := queue } }

/-- The outside world of `exampleEnv` without state secret, in which a
storage client can be created and the bucket exists but holds no backup
object. -/
def restoreEnv (ws : Workspace) : Env :=
  { exampleEnv ws [] with
    GetSecret := fun _ _ _ => .error Err.NotFound
    NewClient := fun _ => .ok ⟨1⟩
    ObjectAttrs := fun _ _ _ => some Err.ErrObjectNotExist }

/-- A state secret without the entry `tfstate`. -/
def emptySecret : Secret := { exampleSecret with Data := ∅ }

/-- The outside world of `exampleEnv` whose state secret is `emptySecret`. -/
def emptySecretEnv (ws : Workspace) : Env :=
  { exampleEnv ws [] with GetSecret := fun _ _ _ => .ok emptySecret }

/-- The workspace `default/workspace-1` as it is while being deleted. -/
def deletingWorkspace : Workspace :=
  { exampleWorkspace with DeletionTimestamp := some 1700000000 }

/-- The annotations holding the approval of `run-1` with the value `yes`. -/
def yesApproved : StringMap := AList.singleton "approvals.etok.dev/run-1" "yes"

/-- The annotations `foo: bar` and the approval of `run-1` with the value
`yes`. -/
def fooBarYes : StringMap := AList.insert "approvals.etok.dev/run-1" "yes" fooBar

/-- A decoded state at serial 2 with two outputs, `password` being marked
sensitive. -/
def outputsState : State where
  Serial := 2
  Outputs := AList.insert "password" ⟨"hunter2", true⟩
    (AList.singleton "url" ⟨"https://example.com", false⟩)

/-- The outside world of `exampleEnv` whose state secret decodes to
`outputsState`. -/
def outputsEnv (ws : Workspace) : Env :=
  { exampleEnv ws [] with decodeState := fun _ => .ok outputsState }

/-- The outside world of `exampleEnv` in which a storage client can be
created: the bucket exists and the write of the backup object succeeds. -/
def backupEnv (ws : Workspace) : Env :=
  { exampleEnv ws [] with NewClient := fun _ => .ok ⟨1⟩ }

/-- The world before any call, without a storage client. -/
def emptyWorld : World := { calls := [], StorageClient := none }

/-! ## Theorems -/

theorem conditionTrue_ne_false : ConditionTrue ≠ ConditionFalse := by decide

theorem conditionTrue_ne_unknown : ConditionTrue ≠ ConditionUnknown := by decide

theorem conditionFalse_ne_unknown : ConditionFalse ≠ ConditionUnknown := by decide

/-- The loop of `managePhase` never returns an error. -/
theorem managePhaseLoop_err (K : Decls) (ws : Workspace) (conds : List Condition) :
    ∀ phase, (managePhaseLoop K ws conds phase).2 = none := by
  induction conds with
  | nil => intro phase; rfl
  | cons c rest ih =>
    intro phase
    unfold managePhaseLoop
    split_ifs <;> first | rfl | exact ih _

/-- The candidate phase after the loop of `managePhase`, from any starting
candidate. -/
theorem managePhaseLoop_phase (K : Decls) (ws : Workspace) (conds : List Condition) :
    ∀ phase, (managePhaseLoop K ws conds phase).1.Status.Phase =
      if ∃ c ∈ conds, c.Status = ConditionTrue then WorkspacePhaseError
      else if (∃ c ∈ conds, c.Status = ConditionUnknown) ∨ phase = WorkspacePhaseUnknown then
        WorkspacePhaseUnknown
      else if ∃ c ∈ conds, c.Status = ConditionFalse ∧ c.Reason = K.pendingReason then
        WorkspacePhaseInitializing
      else phase := by
  induction conds with
  | nil => intro phase; by_cases h : phase = WorkspacePhaseUnknown <;> simp [managePhaseLoop, h]
  | cons c rest ih =>
    intro phase
    unfold managePhaseLoop
    have h1 := conditionTrue_ne_false
    have h2 := conditionTrue_ne_unknown
    have h3 := conditionFalse_ne_unknown
    by_cases hT : c.Status = ConditionTrue
    · simp [hT]
    · by_cases hF : c.Status = ConditionFalse
      · by_cases hP : c.Reason = K.pendingReason ∧ phase ≠ WorkspacePhaseUnknown
        · simp [hT, hF, hP, ih, h1, h1.symm, h3]
        · have hF2 : ¬ ConditionFalse = ConditionTrue := h1.symm
          by_cases hU : phase = WorkspacePhaseUnknown
          · simp [hF, hU, ih, hF2, h3]
          · have hR : ¬ c.Reason = K.pendingReason := fun h => hP ⟨h, hU⟩
            simp [hF, hU, hR, ih, hF2, h3]
      · by_cases hU : c.Status = ConditionUnknown
        · simp [hU, ih, h2.symm, h3.symm]
        · simp [hT, hF, hU, ih]

/-- C1. For every workspace, `managePhase` returns no error and sets
`Status.Phase` to Error if some condition has status True; otherwise to
Unknown if some condition has status Unknown; otherwise to Initializing if
some condition has status False with the pending reason; otherwise (the empty
condition list included) to Ready. -/
theorem managePhase_precedence (K : Decls) (ws : Workspace) :
    (managePhase K ws).2 = none ∧
    (managePhase K ws).1.Status.Phase =
      if ∃ c ∈ ws.Status.Conditions, c.Status = ConditionTrue then WorkspacePhaseError
      else if ∃ c ∈ ws.Status.Conditions, c.Status = ConditionUnknown then WorkspacePhaseUnknown
      else if ∃ c ∈ ws.Status.Conditions,
          c.Status = ConditionFalse ∧ c.Reason = K.pendingReason then
        WorkspacePhaseInitializing
      else WorkspacePhaseReady := by
  refine ⟨managePhaseLoop_err K ws _ _, ?_⟩
  unfold managePhase
  rw [managePhaseLoop_phase]
  simp

/-! ### State backup -/

theorem record_calls (w : World) (c : Call) : (w.record c).calls = w.calls ++ [c] := rfl

/-- The calls of `storageClient`: none when the client is there or handed
back, else the creation of the client. -/
theorem storageClient_calls (E : Env) (w : World) :
    ((storageClient E w).2.calls = w.calls ∧ ∃ c, (storageClient E w).1 = .ok c) ∨
      (storageClient E w).2.calls = w.calls ++ [Call.NewStorageClient] := by
  unfold storageClient
  split
  · exact Or.inl ⟨rfl, _, rfl⟩
  · split <;> exact Or.inr rfl

/-- Whatever its outcome, `backup` starts by contacting the remote storage:
the calls it adds are not empty and all go to the remote storage. -/
theorem backup_calls (E : Env) (K : Decls) (ws : Workspace) (secret : Secret) (sfile : State)
    (w : World) :
    (backup E K ws secret sfile w).2.calls =
        w.calls ++ callsSince w (backup E K ws secret sfile w).2 ∧
      callsSince w (backup E K ws secret sfile w).2 ≠ [] ∧
      ∀ c ∈ callsSince w (backup E K ws secret sfile w).2, c.isStorage = true := by
  unfold backup callsSince
  have hc := storageClient_calls E w
  rcases hsc : storageClient E w with ⟨r, w0⟩
  rw [hsc] at hc
  rcases hc with ⟨hc, c, hr⟩ | hc
  · simp only at hc hr
    subst hr
    simp only
    (repeat' split) <;> simp [record_calls, hc, Call.isStorage]
  · simp only at hc
    cases r <;> simp only <;> (repeat' split) <;> simp [record_calls, hc, Call.isStorage]

theorem persistOutputs_spec (ws : Workspace) (state : State) :
    (persistOutputs ws state).Spec = ws.Spec := by
  unfold persistOutputs
  split <;> rfl

theorem persistOutputs_backupSerial (ws : Workspace) (state : State) :
    (persistOutputs ws state).Status.BackupSerial = ws.Status.BackupSerial := by
  unfold persistOutputs
  split <;> rfl

/-- C2. In `manageState`, when the state secret exists, its ownership update
succeeds and its state decodes, the backup is performed (`manageState` hands
over to `backup`, which contacts the remote storage) if and only if
`Spec.BackupBucket` is non-empty and the decoded serial differs from
`Status.BackupSerial`, whichever of the two is the smaller; otherwise
`manageState` returns without contacting the remote storage. -/
theorem manageState_backup_iff (E : Env) (K : Decls) (ws : Workspace) (w : World)
    (secret owned stored : Secret) (state : State)
    (hget : E.GetSecret w.calls ws.Namespace (K.StateSecretName ws) = .ok secret)
    (hown : E.SetOwnerReference ws secret = .ok owned)
    (hupd : E.UpdateSecret
      (w.record (Call.GetSecret ws.Namespace (K.StateSecretName ws))).calls owned = (stored, none))
    (hread : readState E stored = .ok state) :
    manageState E K ws w =
      (if ws.Spec.BackupBucket ≠ "" ∧ state.Serial ≠ ws.Status.BackupSerial then
        backup E K (persistOutputs ws state) stored state
          ((w.record (Call.GetSecret ws.Namespace (K.StateSecretName ws))).record
            (Call.UpdateSecret owned))
      else
        ((persistOutputs ws state, none),
          (w.record (Call.GetSecret ws.Namespace (K.StateSecretName ws))).record
            (Call.UpdateSecret owned))) ∧
    ((∃ c ∈ callsSince w (manageState E K ws w).2, c.isStorage = true) ↔
      (ws.Spec.BackupBucket ≠ "" ∧ state.Serial ≠ ws.Status.BackupSerial)) := by
  have hms : manageState E K ws w =
      (if ws.Spec.BackupBucket ≠ "" ∧ state.Serial ≠ ws.Status.BackupSerial then
        backup E K (persistOutputs ws state) stored state
          ((w.record (Call.GetSecret ws.Namespace (K.StateSecretName ws))).record
            (Call.UpdateSecret owned))
      else
        ((persistOutputs ws state, none),
          (w.record (Call.GetSecret ws.Namespace (K.StateSecretName ws))).record
            (Call.UpdateSecret owned))) := by
    unfold manageState
    simp only [hget, hown, hupd, hread, persistOutputs_spec, persistOutputs_backupSerial]
  refine ⟨hms, ?_⟩
  rw [hms]
  by_cases hc : ws.Spec.BackupBucket ≠ "" ∧ state.Serial ≠ ws.Status.BackupSerial
  · rw [if_pos hc]
    refine iff_of_true ?_ hc
    obtain ⟨h1, h2, h3⟩ := backup_calls E K (persistOutputs ws state) stored state
      ((w.record (Call.GetSecret ws.Namespace (K.StateSecretName ws))).record
        (Call.UpdateSecret owned))
    obtain ⟨c, hcm⟩ := List.exists_mem_of_ne_nil _ h2
    refine ⟨c, ?_, h3 c hcm⟩
    unfold callsSince
    rw [h1]
    simp only [record_calls, List.append_assoc, List.drop_left]
    simp [hcm]
  · rw [if_neg hc]
    refine iff_of_false ?_ hc
    simp [callsSince, record_calls, Call.isStorage]

/-- C2 at a concrete input: the secret decodes to serial 2, the last backup
was at serial 3 and the bucket is `backups`; the decoded serial is the
smaller one and the remote storage is contacted. -/
theorem manageState_backup_iff_witness :
    (exampleEnv exampleWorkspace []).GetSecret emptyWorld.calls exampleWorkspace.Namespace
        (exampleDecls.StateSecretName exampleWorkspace) = .ok exampleSecret ∧
      (exampleEnv exampleWorkspace []).SetOwnerReference exampleWorkspace exampleSecret =
        .ok { exampleSecret with OwnerReferences := ["workspace-1"] } ∧
      readState (exampleEnv exampleWorkspace [])
        { exampleSecret with OwnerReferences := ["workspace-1"] } = .ok exampleState ∧
      exampleState.Serial < exampleWorkspace.Status.BackupSerial ∧
      ∃ c ∈ callsSince emptyWorld
          (manageState (exampleEnv exampleWorkspace []) exampleDecls exampleWorkspace
            emptyWorld).2, c.isStorage = true :=
  ⟨rfl, rfl, rfl, by decide,
    (manageState_backup_iff (exampleEnv exampleWorkspace []) exampleDecls exampleWorkspace
      emptyWorld exampleSecret { exampleSecret with OwnerReferences := ["workspace-1"] }
      { exampleSecret with OwnerReferences := ["workspace-1"] } exampleState
      rfl rfl rfl rfl).2.2 ⟨by decide, by decide⟩⟩

/-- C3. `backup` returns without error exactly when the storage client is
there or can be created, the bucket is found, the secret is marshalled and
the write and the close of the backup object succeed; it then sets
`Status.BackupSerial` to the serial of the observed state. On every path
where it returns an error (client creation, missing bucket, marshal, write or
close failure) the returned workspace has the `Status.BackupSerial` of the
input workspace. -/
theorem backup_serial (E : Env) (K : Decls) (ws : Workspace) (secret : Secret) (sfile : State)
    (w : World) :
    ((backup E K ws secret sfile w).1.2 = none ↔
        ∃ c y, (storageClient E w).1 = .ok c ∧
          E.BucketAttrs (storageClient E w).2.calls ws.Spec.BackupBucket = none ∧
          E.Marshal secret = .ok y ∧
          E.ObjectWrite
            ((storageClient E w).2.calls ++ [Call.BucketAttrs ws.Spec.BackupBucket])
            ws.Spec.BackupBucket (K.BackupObjectName ws) y = none ∧
          E.ObjectWriterClose
            ((storageClient E w).2.calls ++ [Call.BucketAttrs ws.Spec.BackupBucket] ++
              [Call.ObjectWrite ws.Spec.BackupBucket (K.BackupObjectName ws) y])
            ws.Spec.BackupBucket (K.BackupObjectName ws) = none) ∧
      (backup E K ws secret sfile w).1.1.Status.BackupSerial =
        if (backup E K ws secret sfile w).1.2 = none then sfile.Serial
        else ws.Status.BackupSerial := by
  unfold backup
  rcases storageClient E w with ⟨r, w0⟩
  cases r <;> simp only <;> (repeat' split) <;>
    simp_all [backupFailure, backupOK, setCondition, record_calls]

/-- C3 at two concrete inputs, the secret at serial 2 and the last backup at
serial 3: where the storage answers every call, `backup` returns without
error and the serial becomes 2; where no storage client can be created, it
returns an error and the serial stays 3. -/
theorem backup_serial_witness :
    (backup (backupEnv exampleWorkspace) exampleDecls exampleWorkspace exampleSecret
        exampleState emptyWorld).1.2 = none ∧
      (backup (backupEnv exampleWorkspace) exampleDecls exampleWorkspace exampleSecret
        exampleState emptyWorld).1.1.Status.BackupSerial = 2 ∧
      (backup (exampleEnv exampleWorkspace []) exampleDecls exampleWorkspace exampleSecret
        exampleState emptyWorld).1.2 = some (Err.other "could not find default credentials") ∧
      (backup (exampleEnv exampleWorkspace []) exampleDecls exampleWorkspace exampleSecret
        exampleState emptyWorld).1.1.Status.BackupSerial = 3 :=
  ⟨(backup_serial (backupEnv exampleWorkspace) exampleDecls exampleWorkspace exampleSecret
      exampleState emptyWorld).1.2 ⟨⟨1⟩, [97], rfl, rfl, rfl, rfl, rfl⟩,
    (backup_serial (backupEnv exampleWorkspace) exampleDecls exampleWorkspace exampleSecret
      exampleState emptyWorld).2.trans rfl,
    rfl,
    (backup_serial (exampleEnv exampleWorkspace []) exampleDecls exampleWorkspace exampleSecret
      exampleState emptyWorld).2.trans rfl⟩

/-! ### Approval pruning -/

/-- The flag computed by the copy loop, from any accumulator. -/
theorem copyFold_flag (K : Decls) (l : List ((_ : String) × String)) :
    ∀ acc : Bool × StringMap, (l.foldl (copyStep K) acc).1 =
      (acc.1 || l.any (fun kv => HasPrefix kv.1 K.ApprovedAnnotationKeyPrefix)) := by
  induction l with
  | nil => intro acc; simp
  | cons e t ih =>
    intro acc
    rw [List.foldl_cons, ih]
    unfold copyStep
    by_cases h : HasPrefix e.1 K.ApprovedAnnotationKeyPrefix = true
    · simp [h]
    · simp [h]

/-- The map computed by the copy loop, from any accumulator: the entries of
the list whose key is no approval, over those of the accumulator. -/
theorem copyFold_lookup (K : Decls) (l : List ((_ : String) × String)) (hl : l.NodupKeys) :
    ∀ (acc : Bool × StringMap) (k : String),
      (l.foldl (copyStep K) acc).2.lookup k =
        if HasPrefix k K.ApprovedAnnotationKeyPrefix = false ∧ k ∈ l.keys then l.dlookup k
        else acc.2.lookup k := by
  induction l with
  | nil => intro acc k; simp
  | cons e t ih =>
    intro acc k
    rw [List.nodupKeys_cons] at hl
    rw [List.foldl_cons, ih hl.2]
    obtain ⟨ek, ev⟩ := e
    by_cases hk : k = ek
    · subst hk
      have hnot : ¬ (HasPrefix k K.ApprovedAnnotationKeyPrefix = false ∧ k ∈ t.keys) :=
        fun h => hl.1 h.2
      rw [if_neg hnot]
      unfold copyStep
      by_cases h : HasPrefix k K.ApprovedAnnotationKeyPrefix = true
      · simp [h]
      · simp [h, List.dlookup_cons_eq]
    · have hne : k ≠ (⟨ek, ev⟩ : (_ : String) × String).1 := hk
      rw [List.dlookup_cons_ne _ _ hne]
      have hmem : k ∈ List.keys (⟨ek, ev⟩ :: t) ↔ k ∈ t.keys := by
        simp [List.keys_cons, hk]
      simp only [hmem]
      split
      · rfl
      · unfold copyStep
        split
        · rfl
        · exact AList.lookup_insert_ne hk

/-- The map computed by the second loop, from any accumulator: the approval
key of a listed run that is not completed and that the workspace carries maps
to "approved", every other key is as in the accumulator. -/
theorem readdFold_lookup (K : Decls) (ws : Workspace) (runs : List Run) :
    ∀ (acc : StringMap) (k : String),
      (runs.foldl (readdStep K ws) acc).lookup k =
        if ∃ r ∈ runs, r.Phase ≠ RunPhaseCompleted ∧
            HasAnnotation ws (K.ApprovedAnnotationKey r) = true ∧
            K.ApprovedAnnotationKey r = k then some "approved"
        else acc.lookup k := by
  induction runs with
  | nil => intro acc k; simp
  | cons r t ih =>
    intro acc k
    rw [List.foldl_cons, ih]
    by_cases ht : ∃ r ∈ t, r.Phase ≠ RunPhaseCompleted ∧
        HasAnnotation ws (K.ApprovedAnnotationKey r) = true ∧ K.ApprovedAnnotationKey r = k
    · have hrt : ∃ r' ∈ r :: t, r'.Phase ≠ RunPhaseCompleted ∧
          HasAnnotation ws (K.ApprovedAnnotationKey r') = true ∧
          K.ApprovedAnnotationKey r' = k := by
        obtain ⟨r', hm, h⟩ := ht
        exact ⟨r', List.mem_cons_of_mem _ hm, h⟩
      rw [if_pos ht, if_pos hrt]
    · rw [if_neg ht]
      by_cases hr : r.Phase ≠ RunPhaseCompleted ∧
          HasAnnotation ws (K.ApprovedAnnotationKey r) = true ∧ K.ApprovedAnnotationKey r = k
      · have hrt : ∃ r' ∈ r :: t, r'.Phase ≠ RunPhaseCompleted ∧
            HasAnnotation ws (K.ApprovedAnnotationKey r') = true ∧
            K.ApprovedAnnotationKey r' = k := ⟨r, List.mem_cons_self _ _, hr⟩
        rw [if_pos hrt]
        unfold readdStep
        rw [if_neg hr.1, if_pos hr.2.1, hr.2.2]
        exact AList.lookup_insert _
      · have hrt : ¬ ∃ r' ∈ r :: t, r'.Phase ≠ RunPhaseCompleted ∧
            HasAnnotation ws (K.ApprovedAnnotationKey r') = true ∧
            K.ApprovedAnnotationKey r' = k := by
          rintro ⟨r', hm, h⟩
          rcases List.mem_cons.1 hm with rfl | hm
          · exact hr h
          · exact ht ⟨r', hm, h⟩
        rw [if_neg hrt]
        unfold readdStep
        split
        · rfl
        · split
          · rename_i h1 h2
            have hne : k ≠ K.ApprovedAnnotationKey r := fun h => hr ⟨h1, h2, h.symm⟩
            exact AList.lookup_insert_ne hne
          · rfl

/-- The result of `pruneApprovals` when the workspace carries an approval and
the listing succeeds. -/
theorem pruneApprovals_eq (E : Env) (K : Decls) (ws : Workspace) (w : World)
    (anns : StringMap) (runs : List Run)
    (hanns : ws.Annotations = some anns)
    (happ : ∃ k ∈ anns.keys, HasPrefix k K.ApprovedAnnotationKeyPrefix = true)
    (hlist : E.ListRuns w.calls ws.Namespace = .ok runs) :
    pruneApprovals E K ws w =
      ((some (readdApprovals K ws runs (copyWithoutApprovals K anns).2), none),
        w.record (Call.ListRuns ws.Namespace)) := by
  have hflag : (copyWithoutApprovals K anns).1 = true := by
    unfold copyWithoutApprovals
    rw [copyFold_flag]
    obtain ⟨k, hk, hp⟩ := happ
    obtain ⟨v, hv⟩ := List.mem_keys.1 hk
    simp only [Bool.false_or, List.any_eq_true]
    exact ⟨⟨k, v⟩, hv, hp⟩
  unfold pruneApprovals
  simp only [hanns, hflag, hlist]
  simp

/-- C4. When the workspace has at least one approval-prefixed annotation and
the run listing succeeds, `pruneApprovals` returns a map in which an
approval-prefixed key is present if and only if it is an annotation of the
workspace and the approval annotation key of some listed run whose phase is
not Completed; every non-approval annotation of the workspace is present in
it with its value unchanged (approval keys carry the approval prefix). -/
theorem pruneApprovals_keeps_live (E : Env) (K : Decls) (ws : Workspace) (w : World)
    (anns : StringMap) (runs : List Run)
    (hanns : ws.Annotations = some anns)
    (happ : ∃ k ∈ anns.keys, HasPrefix k K.ApprovedAnnotationKeyPrefix = true)
    (hlist : E.ListRuns w.calls ws.Namespace = .ok runs)
    (hkey : ∀ run, HasPrefix (K.ApprovedAnnotationKey run) K.ApprovedAnnotationKeyPrefix = true) :
    ∃ result, (pruneApprovals E K ws w).1 = (some result, none) ∧
      (∀ k, HasPrefix k K.ApprovedAnnotationKeyPrefix = true →
        (k ∈ result ↔ k ∈ anns ∧
          ∃ run ∈ runs, run.Phase ≠ RunPhaseCompleted ∧ K.ApprovedAnnotationKey run = k)) ∧
      (∀ k v, HasPrefix k K.ApprovedAnnotationKeyPrefix = false →
        anns.lookup k = some v → result.lookup k = some v) := by
  refine ⟨_, by rw [pruneApprovals_eq E K ws w anns runs hanns happ hlist], ?_, ?_⟩
  · intro k hk
    rw [← AList.lookup_isSome]
    unfold readdApprovals copyWithoutApprovals
    rw [readdFold_lookup, copyFold_lookup K _ anns.nodupKeys]
    simp only [hk, Bool.true_eq_false, false_and, if_false, AList.lookup_empty]
    have hann : ∀ r : Run, HasAnnotation ws (K.ApprovedAnnotationKey r) = true ↔
        K.ApprovedAnnotationKey r ∈ anns := by
      intro r
      simp [ HasAnnotation, hanns]
    constructor
    · intro h
      split at h
      · rename_i hex
        obtain ⟨r, hm, hp, ha, he⟩ := hex
        exact ⟨he ▸ (hann r).1 ha, r, hm, hp, he⟩
      · simp at h
    · rintro ⟨hin, r, hm, hp, he⟩
      have hex : ∃ r ∈ runs, r.Phase ≠ RunPhaseCompleted ∧
          HasAnnotation ws (K.ApprovedAnnotationKey r) = true ∧ K.ApprovedAnnotationKey r = k :=
        ⟨r, hm, hp, (hann r).2 (he ▸ hin), he⟩
      rw [if_pos hex]
      rfl
  · intro k v hk hv
    unfold readdApprovals copyWithoutApprovals
    rw [readdFold_lookup, copyFold_lookup K _ anns.nodupKeys]
    have hno : ¬ ∃ r ∈ runs, r.Phase ≠ RunPhaseCompleted ∧
        HasAnnotation ws (K.ApprovedAnnotationKey r) = true ∧ K.ApprovedAnnotationKey r = k := by
      rintro ⟨r, _, _, _, he⟩
      have := hkey r
      rw [he, hk] at this
      exact Bool.false_ne_true this
    rw [if_neg hno]
    have hin : k ∈ anns.entries.keys := by
      have : k ∈ anns := by
        rw [← AList.lookup_isSome, hv]; rfl
      exact this
    rw [if_pos ⟨hk, hin⟩]
    exact hv

/-- C4 at a concrete input: the workspace carries `foo: bar` and the approval
of `run-1`, and `run-1` is listed as running. -/
theorem pruneApprovals_keeps_live_witness :
    ({ exampleWorkspace with Annotations := some fooBarApproved } : Workspace).Annotations =
        some fooBarApproved ∧
      (∃ k ∈ fooBarApproved.keys, HasPrefix k exampleDecls.ApprovedAnnotationKeyPrefix = true) ∧
      ∃ result,
        (pruneApprovals (exampleEnv exampleWorkspace [exampleRun]) exampleDecls
          { exampleWorkspace with Annotations := some fooBarApproved } emptyWorld).1 =
            (some result, none) ∧
        (∀ k, HasPrefix k exampleDecls.ApprovedAnnotationKeyPrefix = true →
          (k ∈ result ↔ k ∈ fooBarApproved ∧
            ∃ run ∈ [exampleRun], run.Phase ≠ RunPhaseCompleted ∧
              exampleDecls.ApprovedAnnotationKey run = k)) ∧
        (∀ k v, HasPrefix k exampleDecls.ApprovedAnnotationKeyPrefix = false →
          fooBarApproved.lookup k = some v → result.lookup k = some v) :=
  ⟨rfl, ⟨"approvals.etok.dev/run-1", by decide, by decide⟩,
    pruneApprovals_keeps_live (exampleEnv exampleWorkspace [exampleRun]) exampleDecls
      { exampleWorkspace with Annotations := some fooBarApproved } emptyWorld fooBarApproved
      [exampleRun] rfl ⟨"approvals.etok.dev/run-1", by decide, by decide⟩ rfl
      (fun run => by
        show List.isPrefixOf _ _ = true
        rw [ List.isPrefixOf_iff_prefix]
        exact ⟨("/" ++ run.Name).data, by simp [exampleDecls, String.data_append]⟩)⟩

/-- The pruning step on non-nil annotations without any approval: the
annotations are replaced by the nil map that `pruneApprovals` returns, the
workspace is marked as to be updated, and no call is made. -/
theorem pruneStep_of_no_approval (E : Env) (K : Decls) (ws : Workspace) (anns : StringMap)
    (specUpdated : Bool) (w : World) (hanns : ws.Annotations = some anns)
    (hno : ∀ k ∈ anns.keys, HasPrefix k K.ApprovedAnnotationKeyPrefix = false) :
    pruneStep E K ws specUpdated w = (.ok ({ ws with Annotations := none }, true), w) := by
  have hflag : (copyWithoutApprovals K anns).1 = false := by
    unfold copyWithoutApprovals
    rw [copyFold_flag]
    simp only [Bool.false_or, List.any_eq_false]
    intro kv hkv
    rw [hno kv.1 (List.mem_keys_of_mem hkv)]
    simp
  have hprune : pruneApprovals E K ws w = ((none, none), w) := by
    unfold pruneApprovals
    simp only [hanns, hflag]
    simp
  unfold pruneStep
  simp only [hprune, hanns]
  rfl

/-- C6, the code at the failing input: the workspace carries the single
annotation `foo: bar`, which is no approval. `pruneApprovals` returns a nil
map, the pruning step replaces the annotations by it and marks the workspace
as to be updated, and `Reconcile` goes on to update the object without its
annotation. -/
theorem pruneStep_drops_other_annotations :
    (∀ k ∈ fooBar.keys, HasPrefix k exampleDecls.ApprovedAnnotationKeyPrefix = false) ∧
      (∃ ws, pruneStep (exampleEnv exampleWorkspace []) exampleDecls
          { exampleWorkspace with Annotations := some fooBar } false emptyWorld =
            (.ok (ws, true), emptyWorld) ∧ ws.Annotations = none) ∧
      ∃ ws, reconcileObject (exampleEnv exampleWorkspace []) exampleDecls
          { exampleWorkspace with Annotations := some fooBar } emptyWorld =
            (.ok ws, emptyWorld.record (Call.UpdateWorkspace ws)) ∧ ws.Annotations = none :=
  ⟨by decide, ⟨_, rfl, rfl⟩, ⟨_, rfl, rfl⟩⟩

/-- C5, the code at the failing input: the workspace carries `foo: bar` and
the approval of `run-1`, and no run is listed. The first pruning step leaves
`foo: bar`; the second, on its result, leaves no annotations at all. -/
theorem pruneStep_twice_differs :
    ∃ ws1 w1 ws2 w2,
      pruneStep (exampleEnv exampleWorkspace []) exampleDecls
        { exampleWorkspace with Annotations := some fooBarApproved } false emptyWorld =
          (.ok (ws1, true), w1) ∧
      pruneStep (exampleEnv exampleWorkspace []) exampleDecls ws1 false w1 =
          (.ok (ws2, true), w2) ∧
      ws1.Annotations = some fooBar ∧ ws2.Annotations = none :=
  ⟨_, _, _, _, rfl, rfl, rfl, rfl⟩

/-! ### The status chain -/

/-- Steps that all return without error are passed through: the end of
`Reconcile` goes on with the rest of the chain from where they leave. -/
theorem reconcileStatus_append (E : Env) (pre rest : List workspaceUpdater) :
    ∀ (ws ws' : Workspace) (w w' : World), runSteps pre ws w = ((ws', none), w') →
      reconcileStatus E (pre ++ rest) ws w = reconcileStatus E rest ws' w' := by
  induction pre with
  | nil =>
    intro ws ws' w w' h
    simp only [runSteps, Prod.mk.injEq, and_true] at h
    obtain ⟨h1, h2⟩ := h
    subst h1 h2
    rfl
  | cons f t ih =>
    intro ws ws' w w' h
    rw [List.cons_append, reconcileStatus]
    rw [runSteps] at h
    rcases hf : f ws w with ⟨⟨wsf, ef⟩, wf⟩
    rw [hf] at h
    cases ef with
    | some err => simp at h
    | none => exact ih wsf ws' wf w' h

/-- `Reconcile` of a workspace that is not being deleted, once the object
itself is dealt with, is the end of `Reconcile` on the chain. -/
theorem Reconcile_live (E : Env) (K : Decls) (chain : List workspaceUpdater)
    (ns name : String) (w w1 : World) (ws0 ws1 : Workspace)
    (hget : E.GetWorkspace w.calls ns name = .ok ws0)
    (hlive : IsZero ws0.DeletionTimestamp = true)
    (hobj : reconcileObject E K ws0 (w.record (Call.GetWorkspace ns name)) = (.ok ws1, w1)) :
    Reconcile E K chain ns name w = reconcileStatus E chain ws1 w1 := by
  unfold Reconcile
  simp only [hget, hlive, hobj]
  simp

/-- C7. If a step of the status chain returns an error during `Reconcile`
(the steps `pre` before it having returned none), the steps `post` after it
are not invoked: the status update is called next, on the workspace that the
failing step returned, and nothing else is called. `Reconcile` then returns
a non-nil error: the error of the status update if it fails, else the error
of the failing step. -/
theorem Reconcile_stops_at_first_error (E : Env) (K : Decls)
    (pre post : List workspaceUpdater) (f : workspaceUpdater) (ns name : String)
    (w w1 w2 w3 : World) (ws0 ws1 ws2 ws3 : Workspace) (err : Err)
    (hget : E.GetWorkspace w.calls ns name = .ok ws0)
    (hlive : IsZero ws0.DeletionTimestamp = true)
    (hobj : reconcileObject E K ws0 (w.record (Call.GetWorkspace ns name)) = (.ok ws1, w1))
    (hpre : runSteps pre ws1 w1 = ((ws2, none), w2))
    (hf : f ws2 w2 = ((ws3, some err), w3)) :
    Reconcile E K (pre ++ f :: post) ns name w =
        ((match (E.StatusUpdate w3.calls ws3).2 with
          | some updateErr => some updateErr
          | none => some err),
         w3.record (Call.StatusUpdate ws3)) ∧
      (Reconcile E K (pre ++ f :: post) ns name w).1 ≠ none := by
  have h : Reconcile E K (pre ++ f :: post) ns name w =
      ((match (E.StatusUpdate w3.calls ws3).2 with
        | some updateErr => some updateErr
        | none => some err),
       w3.record (Call.StatusUpdate ws3)) := by
    rw [Reconcile_live E K _ ns name w w1 ws0 ws1 hget hlive hobj,
      reconcileStatus_append E pre _ ws1 ws2 w1 w2 hpre, reconcileStatus]
    simp only [hf]
    cases (E.StatusUpdate w3.calls ws3).2 <;> rfl
  refine ⟨h, ?_⟩
  rw [h]
  cases (E.StatusUpdate w3.calls ws3).2 <;> simp

/-- C7 at a concrete input: with the chain that `NewWorkspaceReconciler`
builds, `manageVariables` and `manageRBAC` return no error and `manageState`
fails in the backup, as no storage client can be created. -/
theorem Reconcile_stops_at_first_error_witness :
    IsZero exampleWorkspace.DeletionTimestamp = true ∧
      (manageState (exampleEnv exampleWorkspace []) exampleDecls exampleWorkspace
        (runSteps [manageVariables (exampleEnv exampleWorkspace []) exampleDecls,
          manageRBAC (exampleEnv exampleWorkspace []) exampleDecls] exampleWorkspace
          (emptyWorld.record (Call.GetWorkspace "default" "workspace-1"))).2).1.2 =
        some (Err.other "could not find default credentials") ∧
      (Reconcile (exampleEnv exampleWorkspace []) exampleDecls
        (NewWorkspaceReconciler (exampleEnv exampleWorkspace []) exampleDecls "etok" [])
        "default" "workspace-1" emptyWorld).1 ≠ none :=
  ⟨rfl, rfl,
    (Reconcile_stops_at_first_error (exampleEnv exampleWorkspace []) exampleDecls
      [manageVariables (exampleEnv exampleWorkspace []) exampleDecls,
        manageRBAC (exampleEnv exampleWorkspace []) exampleDecls]
      [managePVC (exampleEnv exampleWorkspace []) exampleDecls,
        managePod (exampleEnv exampleWorkspace []) exampleDecls "etok",
        manageQueue (exampleEnv exampleWorkspace []), managePhaseStep exampleDecls]
      (manageState (exampleEnv exampleWorkspace []) exampleDecls)
      "default" "workspace-1" emptyWorld _ _ _ exampleWorkspace _ _ _ _
      rfl rfl rfl rfl rfl).2⟩

/-- The loop of `managePhase` leaves the conditions as they are. -/
theorem managePhaseLoop_conditions (K : Decls) (ws : Workspace) (conds : List Condition) :
    ∀ phase, (managePhaseLoop K ws conds phase).1.Status.Conditions = ws.Status.Conditions := by
  induction conds with
  | nil => intro phase; rfl
  | cons c rest ih =>
    intro phase
    unfold managePhaseLoop
    split_ifs <;> first | rfl | exact ih _

/-- The end of `Reconcile` in terms of the steps that ran: the one status
update is called on the workspace that the last step returned, and the
returned error is the error of that update or else the error of the step. -/
theorem reconcileStatus_runSteps (E : Env) (chain : List workspaceUpdater) :
    ∀ (ws : Workspace) (w : World),
      reconcileStatus E chain ws w =
        ((match (E.StatusUpdate (runSteps chain ws w).2.calls (runSteps chain ws w).1.1).2 with
          | some updateErr => some updateErr
          | none => (runSteps chain ws w).1.2),
         (runSteps chain ws w).2.record (Call.StatusUpdate (runSteps chain ws w).1.1)) := by
  induction chain with
  | nil =>
    intro ws w
    simp only [reconcileStatus, runSteps]
    cases (E.StatusUpdate w.calls ws).2 <;> rfl
  | cons f t ih =>
    intro ws w
    rw [reconcileStatus, runSteps]
    rcases hf : f ws w with ⟨⟨wsf, ef⟩, wf⟩
    cases ef with
    | some err =>
      simp only
      cases (E.StatusUpdate wf.calls wsf).2 <;> rfl
    | none => exact ih wsf wf

/-- A chain that ends with `managePhase`: the steps before it run; when one
of them returns an error, `managePhase` is not reached, otherwise it is
applied to the workspace that they leave. -/
theorem runSteps_append_managePhase (K : Decls) (pre : List workspaceUpdater) :
    ∀ (ws : Workspace) (w : World),
      runSteps (pre ++ [managePhaseStep K]) ws w =
        match (runSteps pre ws w).1.2 with
        | some err => (((runSteps pre ws w).1.1, some err), (runSteps pre ws w).2)
        | none => (((managePhase K (runSteps pre ws w).1.1).1, none), (runSteps pre ws w).2) := by
  induction pre with
  | nil =>
    intro ws w
    have herr : (managePhase K ws).2 = none := managePhaseLoop_err K ws _ _
    simp only [List.nil_append, runSteps, managePhaseStep]
    rcases hm : managePhase K ws with ⟨wsm, em⟩
    rw [hm] at herr
    simp only at herr
    subst herr
    rfl
  | cons f t ih =>
    intro ws w
    rw [List.cons_append, runSteps, runSteps]
    rcases hf : f ws w with ⟨⟨wsf, ef⟩, wf⟩
    cases ef with
    | some err => rfl
    | none => exact ih wsf wf

/-- Steps that leave the phase alone, run one after the other, leave the
phase alone. -/
theorem runSteps_phase (pre : List workspaceUpdater)
    (hphase : ∀ f ∈ pre, ∀ (ws : Workspace) (w : World),
      (f ws w).1.1.Status.Phase = ws.Status.Phase) :
    ∀ (ws : Workspace) (w : World), (runSteps pre ws w).1.1.Status.Phase = ws.Status.Phase := by
  induction pre with
  | nil => intro ws w; rfl
  | cons f t ih =>
    intro ws w
    rw [runSteps]
    have hf := hphase f (List.mem_cons_self _ _) ws w
    rcases hfw : f ws w with ⟨⟨wsf, ef⟩, wf⟩
    rw [hfw] at hf
    cases ef with
    | some err => exact hf
    | none =>
      exact (ih (fun g hg => hphase g (List.mem_cons_of_mem _ hg)) wsf wf).trans hf

theorem manageVariables_phase (E : Env) (K : Decls) (ws : Workspace) (w : World) :
    (manageVariables E K ws w).1.1.Status.Phase = ws.Status.Phase := by
  unfold manageVariables
  simp only
  (repeat' split) <;> rfl

theorem manageRBAC_phase (E : Env) (K : Decls) (ws : Workspace) (w : World) :
    (manageRBAC E K ws w).1.1.Status.Phase = ws.Status.Phase := by
  unfold manageRBAC
  simp only
  (repeat' split) <;> rfl

theorem restore_phase (E : Env) (K : Decls) (ws : Workspace) (w : World) :
    (restore E K ws w).1.1.Status.Phase = ws.Status.Phase := by
  unfold restore
  rcases storageClient E w with ⟨r, w0⟩
  cases r <;> simp only <;> (repeat' split) <;> rfl

theorem backup_phase (E : Env) (K : Decls) (ws : Workspace) (secret : Secret) (sfile : State)
    (w : World) : (backup E K ws secret sfile w).1.1.Status.Phase = ws.Status.Phase := by
  unfold backup
  rcases storageClient E w with ⟨r, w0⟩
  cases r <;> simp only <;> (repeat' split) <;> rfl

theorem persistOutputs_phase (ws : Workspace) (state : State) :
    (persistOutputs ws state).Status.Phase = ws.Status.Phase := by
  unfold persistOutputs
  split <;> rfl

theorem manageState_phase (E : Env) (K : Decls) (ws : Workspace) (w : World) :
    (manageState E K ws w).1.1.Status.Phase = ws.Status.Phase := by
  unfold manageState
  simp only
  (repeat' split) <;>
    first
    | rfl
    | exact restore_phase E K ws _
    | exact persistOutputs_phase ws _
    | exact (backup_phase E K _ _ _ _).trans (persistOutputs_phase ws _)

theorem managePVC_phase (E : Env) (K : Decls) (ws : Workspace) (w : World) :
    (managePVC E K ws w).1.1.Status.Phase = ws.Status.Phase := by
  unfold managePVC
  simp only
  (repeat' split) <;> rfl

theorem managePod_phase (E : Env) (K : Decls) (image : String) (ws : Workspace) (w : World) :
    (managePod E K image ws w).1.1.Status.Phase = ws.Status.Phase := by
  unfold managePod
  simp only
  (repeat' split) <;> rfl

theorem manageQueue_phase (E : Env) (ws : Workspace) (w : World) :
    (manageQueue E ws w).1.1.Status.Phase = ws.Status.Phase := by
  unfold manageQueue
  split <;> rfl

/-- None of the six steps that `NewWorkspaceReconciler` puts before
`managePhase` changes the phase of the workspace. -/
theorem statusSteps_phase (E : Env) (K : Decls) (image : String) :
    ∀ f ∈ [manageVariables E K, manageRBAC E K, manageState E K, managePVC E K,
        managePod E K image, manageQueue E],
      ∀ (ws : Workspace) (w : World), (f ws w).1.1.Status.Phase = ws.Status.Phase := by
  intro f hf ws w
  simp only [List.mem_cons, List.mem_singleton, List.not_mem_nil, or_false] at hf
  rcases hf with rfl | rfl | rfl | rfl | rfl | rfl
  · exact manageVariables_phase E K ws w
  · exact manageRBAC_phase E K ws w
  · exact manageState_phase E K ws w
  · exact managePVC_phase E K ws w
  · exact managePod_phase E K image ws w
  · exact manageQueue_phase E ws w

/-- C8, counterexample, at two inputs; in both the workspace is not being
deleted and its stored phase is Ready. First: the backup in `manageState`
fails, which sets the backup condition to True and makes `Reconcile` bail
out. Second: the stored status carries a True condition and the look-up of
the state secret fails, a step that sets no condition. Each time the status
that `Reconcile` persists (its last call) has a True condition and still the
phase Ready. -/
theorem Reconcile_persists_stale_phase :
    (IsZero exampleWorkspace.DeletionTimestamp = true ∧
      ∃ ws, (Reconcile (exampleEnv exampleWorkspace []) exampleDecls
          (NewWorkspaceReconciler (exampleEnv exampleWorkspace []) exampleDecls "etok" [])
          "default" "workspace-1" emptyWorld).2.calls.getLast? = some (Call.StatusUpdate ws) ∧
        (∃ c ∈ ws.Status.Conditions, c.Status = ConditionTrue) ∧
        ws.Status.Phase = WorkspacePhaseReady ∧ ws.Status.Phase ≠ WorkspacePhaseError) ∧
      (IsZero failedWorkspace.DeletionTimestamp = true ∧
        ∃ ws, (Reconcile (secretErrorEnv failedWorkspace) exampleDecls
            (NewWorkspaceReconciler (secretErrorEnv failedWorkspace) exampleDecls "etok" [])
            "default" "workspace-1" emptyWorld).2.calls.getLast? =
              some (Call.StatusUpdate ws) ∧
          (∃ c ∈ ws.Status.Conditions, c.Status = ConditionTrue) ∧
          ws.Status.Phase = WorkspacePhaseReady ∧ ws.Status.Phase ≠ WorkspacePhaseError) :=
  ⟨⟨rfl, _, rfl, ⟨_, List.mem_singleton.2 rfl, rfl⟩, rfl, by decide⟩,
    ⟨rfl, _, rfl, ⟨_, List.mem_singleton.2 rfl, rfl⟩, rfl, by decide⟩⟩

/-- C8, amended. In a reconcile of a workspace that is not being deleted, on
a status chain that ends with `managePhase`, `Reconcile` makes one status
update, on the workspace that the last step that ran returned. When every
step returns without error, that workspace has the conditions that the steps
before `managePhase` computed and has phase Error whenever they include one
with status True. When a step returns an error, `managePhase` is not applied:
the workspace persisted is the one that the failing step returned, and on the
chain that `NewWorkspaceReconciler` builds its phase is the phase that the
workspace had before the chain ran, whatever its conditions are. -/
theorem Reconcile_phase_error_of_true (E : Env) (K : Decls) (pre : List workspaceUpdater)
    (ns name : String) (w w1 : World) (ws0 ws1 : Workspace)
    (hget : E.GetWorkspace w.calls ns name = .ok ws0)
    (hlive : IsZero ws0.DeletionTimestamp = true)
    (hobj : reconcileObject E K ws0 (w.record (Call.GetWorkspace ns name)) = (.ok ws1, w1)) :
    ∃ ws w2 stepErr,
      runSteps (pre ++ [managePhaseStep K]) ws1 w1 = ((ws, stepErr), w2) ∧
      Reconcile E K (pre ++ [managePhaseStep K]) ns name w =
        ((match (E.StatusUpdate w2.calls ws).2 with
          | some updateErr => some updateErr
          | none => stepErr),
         w2.record (Call.StatusUpdate ws)) ∧
      (stepErr = none →
        (runSteps pre ws1 w1).1.2 = none ∧
        ws.Status.Conditions = (runSteps pre ws1 w1).1.1.Status.Conditions ∧
        ((∃ c ∈ ws.Status.Conditions, c.Status = ConditionTrue) →
          ws.Status.Phase = WorkspacePhaseError)) ∧
      (stepErr ≠ none →
        runSteps pre ws1 w1 = ((ws, stepErr), w2) ∧
        ∀ image, pre ++ [managePhaseStep K] = NewWorkspaceReconciler E K image [] →
          ws.Status.Phase = ws1.Status.Phase) := by
  have hrec := reconcileStatus_runSteps E (pre ++ [managePhaseStep K]) ws1 w1
  rw [← Reconcile_live E K _ ns name w w1 ws0 ws1 hget hlive hobj] at hrec
  have happ := runSteps_append_managePhase K pre ws1 w1
  rcases hpre : runSteps pre ws1 w1 with ⟨⟨ws2, e2⟩, w2⟩
  rw [hpre] at happ
  cases e2 with
  | some err =>
    simp only at happ
    rw [happ] at hrec
    refine ⟨ws2, w2, some err, happ, hrec, fun h => by simp at h, fun _ => ⟨rfl, ?_⟩⟩
    intro image hchain
    have hsix : pre = [manageVariables E K, manageRBAC E K, manageState E K, managePVC E K,
        managePod E K image, manageQueue E] :=
      List.append_cancel_right
        (show pre ++ [managePhaseStep K] =
          [manageVariables E K, manageRBAC E K, manageState E K, managePVC E K,
            managePod E K image, manageQueue E] ++ [managePhaseStep K] from hchain)
    have hp := runSteps_phase pre (hsix ▸ statusSteps_phase E K image) ws1 w1
    rw [hpre] at hp
    exact hp
  | none =>
    simp only at happ
    rw [happ] at hrec
    refine ⟨(managePhase K ws2).1, w2, none, happ, hrec, fun _ => ⟨rfl, ?_, ?_⟩,
      fun h => absurd rfl h⟩
    · exact managePhaseLoop_conditions K ws2 _ _
    · intro h
      have hc : (managePhase K ws2).1.Status.Conditions = ws2.Status.Conditions :=
        managePhaseLoop_conditions K ws2 _ _
      rw [hc] at h
      unfold managePhase
      rw [managePhaseLoop_phase, if_pos h]

/-- C8, amended, at two concrete inputs, on the chain that
`NewWorkspaceReconciler` builds. First: the stored status carries a True
condition and every step returns without error; the persisted status has
that condition and the phase Error. Second: the stored phase is Ready and the
backup fails; the persisted status has the True backup condition and the
phase that was stored. -/
theorem Reconcile_phase_error_of_true_witness :
    IsZero failedWorkspace.DeletionTimestamp = true ∧
      (∃ ws, (Reconcile (exampleEnv failedWorkspace []) exampleDecls
          (NewWorkspaceReconciler (exampleEnv failedWorkspace []) exampleDecls "etok" [])
          "default" "workspace-1" emptyWorld).2.calls.getLast? = some (Call.StatusUpdate ws) ∧
        (∃ c ∈ ws.Status.Conditions, c.Status = ConditionTrue) ∧
        ws.Status.Phase = WorkspacePhaseError) ∧
      (∃ ws, (Reconcile (exampleEnv exampleWorkspace []) exampleDecls
          (NewWorkspaceReconciler (exampleEnv exampleWorkspace []) exampleDecls "etok" [])
          "default" "workspace-1" emptyWorld).2.calls.getLast? = some (Call.StatusUpdate ws) ∧
        (∃ c ∈ ws.Status.Conditions, c.Status = ConditionTrue) ∧
        ws.Status.Phase = exampleWorkspace.Status.Phase) := by
  obtain ⟨ws, w2, stepErr, hrun, hrec, hok, _⟩ :=
    Reconcile_phase_error_of_true (exampleEnv failedWorkspace []) exampleDecls
      [manageVariables (exampleEnv failedWorkspace []) exampleDecls,
        manageRBAC (exampleEnv failedWorkspace []) exampleDecls,
        manageState (exampleEnv failedWorkspace []) exampleDecls,
        managePVC (exampleEnv failedWorkspace []) exampleDecls,
        managePod (exampleEnv failedWorkspace []) exampleDecls "etok",
        manageQueue (exampleEnv failedWorkspace [])]
      "default" "workspace-1" emptyWorld
      (emptyWorld.record (Call.GetWorkspace "default" "workspace-1"))
      failedWorkspace failedWorkspace rfl rfl rfl
  obtain ⟨ws', w2', stepErr', hrun', hrec', _, hfail⟩ :=
    Reconcile_phase_error_of_true (exampleEnv exampleWorkspace []) exampleDecls
      [manageVariables (exampleEnv exampleWorkspace []) exampleDecls,
        manageRBAC (exampleEnv exampleWorkspace []) exampleDecls,
        manageState (exampleEnv exampleWorkspace []) exampleDecls,
        managePVC (exampleEnv exampleWorkspace []) exampleDecls,
        managePod (exampleEnv exampleWorkspace []) exampleDecls "etok",
        manageQueue (exampleEnv exampleWorkspace [])]
      "default" "workspace-1" emptyWorld
      (emptyWorld.record (Call.GetWorkspace "default" "workspace-1"))
      exampleWorkspace exampleWorkspace rfl rfl rfl
  have h1 : stepErr = none := (congrArg (fun r => r.1.2) hrun).symm.trans rfl
  have h2 : stepErr' = some (Err.other "could not find default credentials") :=
    (congrArg (fun r => r.1.2) hrun').symm.trans rfl
  obtain ⟨_, hconds, herror⟩ := hok h1
  obtain ⟨hpre', hphase'⟩ := hfail (by rw [h2]; exact Option.some_ne_none _)
  have hT : ∃ c ∈ ws.Status.Conditions, c.Status = ConditionTrue := by
    rw [hconds]
    exact ⟨_, List.mem_cons_self _ _, rfl⟩
  have hws' : ws' = _ := (congrArg (fun r => r.1.1) hpre').symm
  have hT' : ∃ c ∈ ws'.Status.Conditions, c.Status = ConditionTrue := by
    rw [hws']
    exact ⟨_, List.mem_singleton.2 rfl, rfl⟩
  refine ⟨rfl, ⟨ws, ?_, hT, herror hT⟩, ⟨ws', ?_, hT', hphase' "etok" rfl⟩⟩
  · have hchain : NewWorkspaceReconciler (exampleEnv failedWorkspace []) exampleDecls "etok" [] =
        [manageVariables (exampleEnv failedWorkspace []) exampleDecls,
          manageRBAC (exampleEnv failedWorkspace []) exampleDecls,
          manageState (exampleEnv failedWorkspace []) exampleDecls,
          managePVC (exampleEnv failedWorkspace []) exampleDecls,
          managePod (exampleEnv failedWorkspace []) exampleDecls "etok",
          manageQueue (exampleEnv failedWorkspace [])] ++ [managePhaseStep exampleDecls] := rfl
    rw [hchain, hrec]
    simp [record_calls]
  · have hchain : NewWorkspaceReconciler (exampleEnv exampleWorkspace []) exampleDecls "etok" [] =
        [manageVariables (exampleEnv exampleWorkspace []) exampleDecls,
          manageRBAC (exampleEnv exampleWorkspace []) exampleDecls,
          manageState (exampleEnv exampleWorkspace []) exampleDecls,
          managePVC (exampleEnv exampleWorkspace []) exampleDecls,
          managePod (exampleEnv exampleWorkspace []) exampleDecls "etok",
          manageQueue (exampleEnv exampleWorkspace [])] ++ [managePhaseStep exampleDecls] := rfl
    rw [hchain, hrec']
    simp [record_calls]

/-! ### The queue -/

/-- A kept entry names a listed run that is not completed. -/
theorem queueKeeps_run (runs : List Run) (n : String) (h : queueKeeps runs n = true) :
    ∃ r ∈ runs, r.Name = n ∧ r.Phase ≠ RunPhaseCompleted := by
  unfold queueKeeps at h
  split at h
  · simp at h
  · rename_i r hr
    refine ⟨r, List.mem_of_find?_eq_some hr, ?_, by simpa using h⟩
    simpa using List.find?_some hr

/-- With distinct run names, the entries kept are exactly the names of the
listed runs that are not completed. -/
theorem queueKeeps_iff (runs : List Run) (hnames : (runs.map Run.Name).Nodup) (n : String) :
    queueKeeps runs n = true ↔ ∃ r ∈ runs, r.Name = n ∧ r.Phase ≠ RunPhaseCompleted := by
  refine ⟨queueKeeps_run runs n, ?_⟩
  rintro ⟨r, hm, hn, hp⟩
  unfold queueKeeps
  split
  · rename_i hnone
    rw [List.find?_eq_none] at hnone
    exact absurd (by simpa using hn) (hnone r hm)
  · rename_i r2 hr
    have hm2 := List.mem_of_find?_eq_some hr
    have hn2 : r2.Name = n := by simpa using List.find?_some hr
    have : r2 = r := List.inj_on_of_nodup_map hnames hm2 hm (hn2.trans hn.symm)
    subst this
    simpa using hp

/-- Every name that the appending loop leaves in the queue was there before
or is the name of a listed run that is not completed. -/
theorem enqueueFold_mem (wsName : String) (runs : List Run) :
    ∀ (queue : List String) (n : String), n ∈ runs.foldl (enqueue wsName) queue →
      n ∈ queue ∨ ∃ r ∈ runs, r.Name = n ∧ r.Phase ≠ RunPhaseCompleted := by
  induction runs with
  | nil => intro queue n h; exact Or.inl h
  | cons r t ih =>
    intro queue n h
    rw [List.foldl_cons] at h
    rcases ih _ n h with h1 | ⟨r2, hm, h2⟩
    · unfold enqueue at h1
      split at h1
      · rename_i hc
        rcases List.mem_append.1 h1 with h1 | h1
        · exact Or.inl h1
        · exact Or.inr ⟨r, List.mem_cons_self _ _, (List.mem_singleton.1 h1).symm, hc.2.2.1⟩
      · exact Or.inl h1
    · exact Or.inr ⟨r2, List.mem_cons_of_mem _ hm, h2⟩

/-- Every name in the computed queue is the name of a listed run that is not
completed. -/
theorem updateQueue_mem (ws : Workspace) (runs : List Run) (n : String)
    (h : n ∈ updateQueue ws runs) : ∃ r ∈ runs, r.Name = n ∧ r.Phase ≠ RunPhaseCompleted := by
  unfold updateQueue at h
  rcases enqueueFold_mem ws.Name runs _ n h with h1 | h1
  · exact queueKeeps_run runs n (List.mem_filter.1 h1).2
  · exact h1

/-- C9. For every existing queue and every run list (run names being
distinct, as in any listing of a namespace), the queue computed by
`updateQueue` contains no name of a run whose phase is Completed and no name
that is absent from the run list. -/
theorem updateQueue_live (ws : Workspace) (runs : List Run)
    (hnames : (runs.map Run.Name).Nodup) :
    (∀ r ∈ runs, r.Phase = RunPhaseCompleted → r.Name ∉ updateQueue ws runs) ∧
      (∀ n ∈ updateQueue ws runs, n ∈ runs.map Run.Name) := by
  constructor
  · intro r hm hp hin
    obtain ⟨r2, hm2, hn2, hp2⟩ := updateQueue_mem ws runs _ hin
    have : r2 = r := List.inj_on_of_nodup_map hnames hm2 hm hn2
    subst this
    exact hp2 hp
  · intro n hin
    obtain ⟨r, hm, hn, _⟩ := updateQueue_mem ws runs n hin
    exact List.mem_map.2 ⟨r, hm, hn⟩

/-- C9 at the scenario of the spec: the queue is `apply-1`, `apply-2`, and
`apply-1` is completed while `apply-2` is running. -/
theorem updateQueue_live_witness :
    updateQueue (queuedWorkspace ["apply-1", "apply-2"])
        [runOf "apply-1" CommandClass.mutating RunPhaseCompleted,
          runOf "apply-2" CommandClass.mutating RunPhaseRunning] = ["apply-2"] ∧
      ((∀ r ∈ [runOf "apply-1" CommandClass.mutating RunPhaseCompleted,
            runOf "apply-2" CommandClass.mutating RunPhaseRunning],
          r.Phase = RunPhaseCompleted →
            r.Name ∉ updateQueue (queuedWorkspace ["apply-1", "apply-2"])
              [runOf "apply-1" CommandClass.mutating RunPhaseCompleted,
                runOf "apply-2" CommandClass.mutating RunPhaseRunning]) ∧
        (∀ n ∈ updateQueue (queuedWorkspace ["apply-1", "apply-2"])
              [runOf "apply-1" CommandClass.mutating RunPhaseCompleted,
                runOf "apply-2" CommandClass.mutating RunPhaseRunning],
          n ∈ [runOf "apply-1" CommandClass.mutating RunPhaseCompleted,
            runOf "apply-2" CommandClass.mutating RunPhaseRunning].map Run.Name)) :=
  ⟨by decide, updateQueue_live (queuedWorkspace ["apply-1", "apply-2"])
    [runOf "apply-1" CommandClass.mutating RunPhaseCompleted,
      runOf "apply-2" CommandClass.mutating RunPhaseRunning] (by decide)⟩

/-- With distinct run names, the appending loop appends to the queue, in the
order of the run list, the names of the runs that it admits against the
queue it started from. -/
theorem enqueueFold_eq (wsName : String) (runs : List Run) :
    (runs.map Run.Name).Nodup → ∀ queue : List String,
      runs.foldl (enqueue wsName) queue =
        queue ++ (runs.filter (fun r => decide (r.Workspace = wsName ∧
          r.Class = CommandClass.mutating ∧ r.Phase ≠ RunPhaseCompleted ∧
          r.Name ∉ queue))).map Run.Name := by
  induction runs with
  | nil => intro _ queue; simp
  | cons r t ih =>
    intro hn queue
    rw [List.map_cons, List.nodup_cons] at hn
    rw [List.foldl_cons, ih hn.2]
    by_cases hc : r.Workspace = wsName ∧ r.Class = CommandClass.mutating ∧
        r.Phase ≠ RunPhaseCompleted ∧ r.Name ∉ queue
    · have hstep : enqueue wsName queue r = queue ++ [r.Name] := by
        unfold enqueue
        rw [if_pos hc]
      have hcongr : t.filter (fun r2 => decide (r2.Workspace = wsName ∧
            r2.Class = CommandClass.mutating ∧ r2.Phase ≠ RunPhaseCompleted ∧
            r2.Name ∉ queue ++ [r.Name])) =
          t.filter (fun r2 => decide (r2.Workspace = wsName ∧
            r2.Class = CommandClass.mutating ∧ r2.Phase ≠ RunPhaseCompleted ∧
            r2.Name ∉ queue)) := by
        apply List.filter_congr
        intro r2 hm
        have hne : r2.Name ≠ r.Name := by
          intro h
          exact hn.1 (h ▸ List.mem_map_of_mem Run.Name hm)
        simp [hne]
      rw [hstep, hcongr, List.filter_cons_of_pos (by simpa using hc)]
      simp
    · have hstep : enqueue wsName queue r = queue := by
        unfold enqueue
        rw [if_neg hc]
      rw [hstep, List.filter_cons_of_neg (by simpa using hc)]

/-- C10. For every existing queue and every run list (the queue holding no
name twice and run names being distinct), the queue computed by `updateQueue`
is the existing queue restricted to its surviving entries (those naming a
listed run that is not completed), in their original order, followed by the
names of the newly enqueued runs (of this workspace, mutating, not Completed,
not already in the queue) in the order of the run list; and no name occurs
twice in it. -/
theorem updateQueue_order (ws : Workspace) (runs : List Run)
    (hqueue : ws.Status.Queue.Nodup) (hnames : (runs.map Run.Name).Nodup) :
    updateQueue ws runs =
        ws.Status.Queue.filter
          (fun n => decide (∃ r ∈ runs, r.Name = n ∧ r.Phase ≠ RunPhaseCompleted)) ++
        (runs.filter (fun r => decide (r.Workspace = ws.Name ∧
          r.Class = CommandClass.mutating ∧ r.Phase ≠ RunPhaseCompleted ∧
          r.Name ∉ ws.Status.Queue))).map Run.Name ∧
      (updateQueue ws runs).Nodup := by
  have hkept : ws.Status.Queue.filter (queueKeeps runs) =
      ws.Status.Queue.filter
        (fun n => decide (∃ r ∈ runs, r.Name = n ∧ r.Phase ≠ RunPhaseCompleted)) := by
    apply List.filter_congr
    intro n _
    by_cases h : ∃ r ∈ runs, r.Name = n ∧ r.Phase ≠ RunPhaseCompleted
    · rw [(queueKeeps_iff runs hnames n).2 h]
      exact (decide_eq_true h).symm
    · have h2 : queueKeeps runs n = false := by
        cases hk : queueKeeps runs n
        · rfl
        · exact absurd ((queueKeeps_iff runs hnames n).1 hk) h
      rw [h2]
      exact (decide_eq_false h).symm
  have hnew : runs.filter (fun r => decide (r.Workspace = ws.Name ∧
        r.Class = CommandClass.mutating ∧ r.Phase ≠ RunPhaseCompleted ∧
        r.Name ∉ ws.Status.Queue.filter (queueKeeps runs))) =
      runs.filter (fun r => decide (r.Workspace = ws.Name ∧
        r.Class = CommandClass.mutating ∧ r.Phase ≠ RunPhaseCompleted ∧
        r.Name ∉ ws.Status.Queue)) := by
    apply List.filter_congr
    intro r hm
    by_cases hp : r.Phase = RunPhaseCompleted
    · simp [hp]
    · have hk : queueKeeps runs r.Name = true :=
        (queueKeeps_iff runs hnames r.Name).2 ⟨r, hm, rfl, hp⟩
      simp [List.mem_filter, hk]
  have heq : updateQueue ws runs =
      ws.Status.Queue.filter
        (fun n => decide (∃ r ∈ runs, r.Name = n ∧ r.Phase ≠ RunPhaseCompleted)) ++
      (runs.filter (fun r => decide (r.Workspace = ws.Name ∧
        r.Class = CommandClass.mutating ∧ r.Phase ≠ RunPhaseCompleted ∧
        r.Name ∉ ws.Status.Queue))).map Run.Name := by
    unfold updateQueue
    rw [enqueueFold_eq ws.Name runs hnames, hnew, hkept]
  refine ⟨heq, ?_⟩
  rw [heq, List.nodup_append]
  refine ⟨hqueue.filter _, ?_, ?_⟩
  · exact List.Nodup.sublist ((List.filter_sublist _).map Run.Name) hnames
  · intro n h1 h2
    have hin : n ∈ ws.Status.Queue := (List.mem_filter.1 h1).1
    obtain ⟨r, hr, hn⟩ := List.mem_map.1 h2
    have hc := (List.mem_filter.1 hr).2
    simp only [decide_eq_true_eq] at hc
    exact hc.2.2.2 (hn ▸ hin)

/-- C10 at a concrete input: the queue is `apply-1`, `apply-2`; `apply-1` is
completed, `apply-2` is running, the plan `plan-1` and the applies `apply-3`
and `apply-4` are pending. -/
theorem updateQueue_order_witness :
    updateQueue (queuedWorkspace ["apply-1", "apply-2"])
        [runOf "apply-4" CommandClass.mutating RunPhasePending,
          runOf "apply-1" CommandClass.mutating RunPhaseCompleted,
          runOf "plan-1" CommandClass.plan RunPhasePending,
          runOf "apply-2" CommandClass.mutating RunPhaseRunning,
          runOf "apply-3" CommandClass.mutating RunPhasePending] =
        ["apply-2", "apply-4", "apply-3"] ∧
      (updateQueue (queuedWorkspace ["apply-1", "apply-2"])
        [runOf "apply-4" CommandClass.mutating RunPhasePending,
          runOf "apply-1" CommandClass.mutating RunPhaseCompleted,
          runOf "plan-1" CommandClass.plan RunPhasePending,
          runOf "apply-2" CommandClass.mutating RunPhaseRunning,
          runOf "apply-3" CommandClass.mutating RunPhasePending]).Nodup :=
  ⟨by decide,
    (updateQueue_order (queuedWorkspace ["apply-1", "apply-2"])
      [runOf "apply-4" CommandClass.mutating RunPhasePending,
        runOf "apply-1" CommandClass.mutating RunPhaseCompleted,
        runOf "plan-1" CommandClass.plan RunPhasePending,
        runOf "apply-2" CommandClass.mutating RunPhaseRunning,
        runOf "apply-3" CommandClass.mutating RunPhasePending]
      (by decide) (by decide)).2⟩

/-- Every name that the appending loop adds to the queue is the name of a
listed run of the mutating class. -/
theorem enqueueFold_mem_class (wsName : String) (runs : List Run) :
    ∀ (queue : List String) (n : String), n ∈ runs.foldl (enqueue wsName) queue →
      n ∈ queue ∨ ∃ r ∈ runs, r.Name = n ∧ r.Class = CommandClass.mutating := by
  induction runs with
  | nil => intro queue n h; exact Or.inl h
  | cons r t ih =>
    intro queue n h
    rw [List.foldl_cons] at h
    rcases ih _ n h with h1 | ⟨r2, hm, h2⟩
    · unfold enqueue at h1
      split at h1
      · rename_i hc
        rcases List.mem_append.1 h1 with h1 | h1
        · exact Or.inl h1
        · exact Or.inr ⟨r, List.mem_cons_self _ _, (List.mem_singleton.1 h1).symm, hc.2.1⟩
      · exact Or.inl h1
    · exact Or.inr ⟨r2, List.mem_cons_of_mem _ hm, h2⟩

/-- The appending loop drops nothing: what is in the queue stays in it. -/
theorem enqueueFold_subset (wsName : String) (runs : List Run) :
    ∀ (queue : List String) (n : String), n ∈ queue → n ∈ runs.foldl (enqueue wsName) queue := by
  induction runs with
  | nil => intro queue n h; exact h
  | cons r t ih =>
    intro queue n h
    rw [List.foldl_cons]
    apply ih
    unfold enqueue
    split
    · exact List.mem_append_left _ h
    · exact h

/-- C11, counterexample: the existing queue holds `plan-1` and the plan run
`plan-1` of the workspace is listed as pending. The computed queue still
holds `plan-1`: an entry of the existing queue is dropped only when its run
is gone or completed. -/
theorem updateQueue_keeps_queued_plan :
    (runOf "plan-1" CommandClass.plan RunPhasePending).Class = CommandClass.plan ∧
      (runOf "plan-1" CommandClass.plan RunPhasePending).Workspace =
        (queuedWorkspace ["plan-1"]).Name ∧
      updateQueue (queuedWorkspace ["plan-1"])
        [runOf "plan-1" CommandClass.plan RunPhasePending] = ["plan-1"] ∧
      (runOf "plan-1" CommandClass.plan RunPhasePending).Name ∈
        updateQueue (queuedWorkspace ["plan-1"])
          [runOf "plan-1" CommandClass.plan RunPhasePending] :=
  ⟨rfl, rfl, by decide, by decide⟩

/-- C11, amended. For every existing queue and every run list (run names
being distinct), `updateQueue` enqueues no plan-class run, whatever its
phase: a plan run that is in the run list appears in the computed queue if
and only if the existing queue already held its name and the run is not
completed. -/
theorem updateQueue_no_plan (ws : Workspace) (runs : List Run) (r : Run)
    (hnames : (runs.map Run.Name).Nodup) (hr : r ∈ runs) (hplan : r.Class = CommandClass.plan) :
    r.Name ∈ updateQueue ws runs ↔ r.Name ∈ ws.Status.Queue ∧ r.Phase ≠ RunPhaseCompleted := by
  unfold updateQueue
  constructor
  · intro hin
    rcases enqueueFold_mem_class ws.Name runs _ r.Name hin with h1 | ⟨r2, hm2, hn2, hc2⟩
    · obtain ⟨hq, hk⟩ := List.mem_filter.1 h1
      obtain ⟨r2, hm2, hn2, hp2⟩ := queueKeeps_run runs r.Name hk
      have : r2 = r := List.inj_on_of_nodup_map hnames hm2 hr hn2
      subst this
      exact ⟨hq, hp2⟩
    · have : r2 = r := List.inj_on_of_nodup_map hnames hm2 hr hn2
      subst this
      rw [hplan] at hc2
      exact absurd hc2 (by decide)
  · rintro ⟨hq, hp⟩
    apply enqueueFold_subset
    exact List.mem_filter.2 ⟨hq, (queueKeeps_iff runs hnames r.Name).2 ⟨r, hr, rfl, hp⟩⟩

/-- C11, amended, at the scenario of the spec: the queue is empty, the plan
`plan-1` and the apply `apply-1` are pending; only `apply-1` is queued. -/
theorem updateQueue_no_plan_witness :
    updateQueue (queuedWorkspace [])
        [runOf "plan-1" CommandClass.plan RunPhasePending,
          runOf "apply-1" CommandClass.mutating RunPhasePending] = ["apply-1"] ∧
      (runOf "plan-1" CommandClass.plan RunPhasePending).Name ∉
        updateQueue (queuedWorkspace [])
          [runOf "plan-1" CommandClass.plan RunPhasePending,
            runOf "apply-1" CommandClass.mutating RunPhasePending] :=
  ⟨by decide, fun h => List.not_mem_nil _
    ((updateQueue_no_plan (queuedWorkspace [])
      [runOf "plan-1" CommandClass.plan RunPhasePending,
        runOf "apply-1" CommandClass.mutating RunPhasePending]
      (runOf "plan-1" CommandClass.plan RunPhasePending)
      (by decide) (by decide) rfl).1 h).1⟩

/-- The appending loop misses no run: a listed run of the workspace that is
mutating and not completed has its name in the queue afterwards. -/
theorem enqueueFold_complete (wsName : String) (runs : List Run) (r : Run) :
    ∀ queue : List String, r ∈ runs → r.Workspace = wsName →
      r.Class = CommandClass.mutating → r.Phase ≠ RunPhaseCompleted →
      r.Name ∈ runs.foldl (enqueue wsName) queue := by
  induction runs with
  | nil => intro queue h; simp at h
  | cons r2 t ih =>
    intro queue hm hw hc hp
    rw [List.foldl_cons]
    rcases List.mem_cons.1 hm with rfl | hm
    · apply enqueueFold_subset
      unfold enqueue
      by_cases hin : r.Name ∈ queue
      · split
        · exact List.mem_append_left _ hin
        · exact hin
      · rw [if_pos ⟨hw, hc, hp, hin⟩]
        simp
    · exact ih _ hm hw hc hp

/-- The appending loop leaves a queue as it is when the queue already holds
the name of every listed run that the loop would admit. -/
theorem enqueueFold_fixed (wsName : String) (runs : List Run) (queue : List String)
    (h : ∀ r ∈ runs, r.Workspace = wsName → r.Class = CommandClass.mutating →
      r.Phase ≠ RunPhaseCompleted → r.Name ∈ queue) :
    runs.foldl (enqueue wsName) queue = queue := by
  induction runs with
  | nil => rfl
  | cons r t ih =>
    rw [List.foldl_cons]
    have hstep : enqueue wsName queue r = queue := by
      unfold enqueue
      split
      · rename_i hc
        exact absurd (h r (List.mem_cons_self _ _) hc.1 hc.2.1 hc.2.2.1) hc.2.2.2
      · rfl
    rw [hstep]
    exact ih (fun r2 hm => h r2 (List.mem_cons_of_mem _ hm))

/-- C12. `updateQueue` is idempotent: for every existing queue and every run
list (run names being distinct), computing the queue from the result of a
first computation and the same run list yields that same result. -/
theorem updateQueue_idempotent (ws : Workspace) (runs : List Run)
    (hnames : (runs.map Run.Name).Nodup) :
    updateQueue { ws with Status := { ws.Status with Queue := updateQueue ws runs } } runs =
      updateQueue ws runs := by
  have hkeep : (updateQueue ws runs).filter (queueKeeps runs) = updateQueue ws runs := by
    rw [List.filter_eq_self]
    intro n hn
    exact (queueKeeps_iff runs hnames n).2 (updateQueue_mem ws runs n hn)
  have hall : ∀ r ∈ runs, r.Workspace = ws.Name → r.Class = CommandClass.mutating →
      r.Phase ≠ RunPhaseCompleted → r.Name ∈ updateQueue ws runs := by
    intro r hm hw hc hp
    unfold updateQueue
    exact enqueueFold_complete ws.Name runs r _ hm hw hc hp
  show runs.foldl (enqueue ws.Name) ((updateQueue ws runs).filter (queueKeeps runs)) =
    updateQueue ws runs
  rw [hkeep]
  exact enqueueFold_fixed ws.Name runs _ hall

/-- C12 at a concrete input: the queue is `apply-1`, `apply-2`; `apply-1` is
completed, `apply-2` is running and `apply-3` is pending. -/
theorem updateQueue_idempotent_witness :
    updateQueue (queuedWorkspace ["apply-1", "apply-2"])
        [runOf "apply-3" CommandClass.mutating RunPhasePending,
          runOf "apply-1" CommandClass.mutating RunPhaseCompleted,
          runOf "apply-2" CommandClass.mutating RunPhaseRunning] = ["apply-2", "apply-3"] ∧
      updateQueue
          { queuedWorkspace ["apply-1", "apply-2"] with
            Status := { (queuedWorkspace ["apply-1", "apply-2"]).Status with
              Queue := updateQueue (queuedWorkspace ["apply-1", "apply-2"])
                [runOf "apply-3" CommandClass.mutating RunPhasePending,
                  runOf "apply-1" CommandClass.mutating RunPhaseCompleted,
                  runOf "apply-2" CommandClass.mutating RunPhaseRunning] } }
          [runOf "apply-3" CommandClass.mutating RunPhasePending,
            runOf "apply-1" CommandClass.mutating RunPhaseCompleted,
            runOf "apply-2" CommandClass.mutating RunPhaseRunning] =
        updateQueue (queuedWorkspace ["apply-1", "apply-2"])
          [runOf "apply-3" CommandClass.mutating RunPhasePending,
            runOf "apply-1" CommandClass.mutating RunPhaseCompleted,
            runOf "apply-2" CommandClass.mutating RunPhaseRunning] :=
  ⟨by decide,
    updateQueue_idempotent (queuedWorkspace ["apply-1", "apply-2"])
      [runOf "apply-3" CommandClass.mutating RunPhasePending,
        runOf "apply-1" CommandClass.mutating RunPhaseCompleted,
        runOf "apply-2" CommandClass.mutating RunPhaseRunning] (by decide)⟩

/-! ### Restore and the state secret -/

/-- Setting a condition leaves it among the conditions. -/
theorem mem_SetStatusCondition (conds : List Condition) (c : Condition) :
    c ∈ SetStatusCondition conds c := by
  induction conds with
  | nil => simp [SetStatusCondition]
  | cons d rest ih =>
    unfold SetStatusCondition
    split
    · exact List.mem_cons_self _ _
    · exact List.mem_cons_of_mem _ ih

/-- C13. When `restore` has a storage client and finds the bucket but the
backup object does not exist, it returns no error and the workspace with the
restore condition set by `restoreOK` (status False) with the
nothing-to-restore reason; after the two look-ups it calls nothing, so that
no secret is created in the object store. -/
theorem restore_nothing_to_restore (E : Env) (K : Decls) (ws : Workspace) (w w0 : World)
    (client : StorageClient)
    (hclient : storageClient E w = (.ok client, w0))
    (hbucket : E.BucketAttrs w0.calls ws.Spec.BackupBucket = none)
    (hobject : E.ObjectAttrs (w0.record (Call.BucketAttrs ws.Spec.BackupBucket)).calls
      ws.Spec.BackupBucket (K.BackupObjectName ws) = some Err.ErrObjectNotExist) :
    restore E K ws w =
        ((restoreOK K ws K.nothingToRestoreReason "No backup was found to restore", none),
          (w0.record (Call.BucketAttrs ws.Spec.BackupBucket)).record
            (Call.ObjectAttrs ws.Spec.BackupBucket (K.BackupObjectName ws))) ∧
      (⟨K.RestoreFailureCondition, ConditionFalse, K.nothingToRestoreReason,
          "No backup was found to restore"⟩ : Condition) ∈
        (restore E K ws w).1.1.Status.Conditions ∧
      ∀ c ∈ callsSince w (restore E K ws w).2, c.isStoreWrite = false := by
  have hres : restore E K ws w =
      ((restoreOK K ws K.nothingToRestoreReason "No backup was found to restore", none),
        (w0.record (Call.BucketAttrs ws.Spec.BackupBucket)).record
          (Call.ObjectAttrs ws.Spec.BackupBucket (K.BackupObjectName ws))) := by
    unfold restore
    simp only [hclient, hbucket, hobject]
    simp
  refine ⟨hres, ?_, ?_⟩
  · rw [hres]
    exact mem_SetStatusCondition _ _
  · rw [hres]
    have hc := storageClient_calls E w
    rw [hclient] at hc
    unfold callsSince
    rcases hc with ⟨hc, _⟩ | hc
    · simp only at hc
      simp [record_calls, hc, Call.isStoreWrite]
    · simp only at hc
      simp [record_calls, hc, Call.isStoreWrite]

/-- C13 at a concrete input: no storage client yet, one can be created, the
bucket `backups` exists and holds no backup object. -/
theorem restore_nothing_to_restore_witness :
    (restore (restoreEnv exampleWorkspace) exampleDecls exampleWorkspace emptyWorld).1.2 = none ∧
      (⟨"RestoreFailure", ConditionFalse, "NothingToRestore",
          "No backup was found to restore"⟩ : Condition) ∈
        (restore (restoreEnv exampleWorkspace) exampleDecls exampleWorkspace
          emptyWorld).1.1.Status.Conditions ∧
      ∀ c ∈ callsSince emptyWorld
          (restore (restoreEnv exampleWorkspace) exampleDecls exampleWorkspace emptyWorld).2,
        c.isStoreWrite = false :=
  ⟨rfl,
    (restore_nothing_to_restore (restoreEnv exampleWorkspace) exampleDecls exampleWorkspace
      emptyWorld _ ⟨1⟩ rfl rfl rfl).2⟩

/-- Whatever its outcome, `restore` contacts the remote storage: the first
call it adds goes there. -/
theorem restore_calls (E : Env) (K : Decls) (ws : Workspace) (w : World) :
    ∃ c ∈ callsSince w (restore E K ws w).2, c.isStorage = true := by
  unfold restore callsSince
  have hc := storageClient_calls E w
  rcases hsc : storageClient E w with ⟨r, w0⟩
  rw [hsc] at hc
  rcases hc with ⟨hc, c, hr⟩ | hc
  · simp only at hc hr
    subst hr
    simp only
    refine ⟨Call.BucketAttrs ws.Spec.BackupBucket, ?_, rfl⟩
    (repeat' split) <;> simp [record_calls, hc]
  · simp only at hc
    refine ⟨Call.NewStorageClient, ?_, rfl⟩
    cases r <;> simp only <;> (repeat' split) <;> simp [record_calls, hc]

/-- C14. When the state secret is not found and `Spec.BackupBucket` is
empty, `manageState` returns the input workspace unchanged with a nil error,
and its one call is the look-up of the secret: the remote storage is not
contacted (no restore, no backup) and nothing is created or updated in the
object store. -/
theorem manageState_noop (E : Env) (K : Decls) (ws : Workspace) (w : World)
    (hget : E.GetSecret w.calls ws.Namespace (K.StateSecretName ws) = .error Err.NotFound)
    (hbucket : ws.Spec.BackupBucket = "") :
    manageState E K ws w =
        ((ws, none), w.record (Call.GetSecret ws.Namespace (K.StateSecretName ws))) ∧
      ∀ c ∈ callsSince w (manageState E K ws w).2,
        c.isStorage = false ∧ c.isStoreWrite = false := by
  have hres : manageState E K ws w =
      ((ws, none), w.record (Call.GetSecret ws.Namespace (K.StateSecretName ws))) := by
    unfold manageState
    simp only [hget, hbucket]
    simp
  refine ⟨hres, ?_⟩
  rw [hres]
  simp [callsSince, record_calls, Call.isStorage, Call.isStoreWrite]

/-- C14 at a concrete input: the workspace has no backup bucket and the
object store holds no state secret. -/
theorem manageState_noop_witness :
    failedWorkspace.Spec.BackupBucket = "" ∧
      (manageState (restoreEnv failedWorkspace) exampleDecls failedWorkspace emptyWorld).1.2 =
        none ∧
      ∀ c ∈ callsSince emptyWorld
          (manageState (restoreEnv failedWorkspace) exampleDecls failedWorkspace emptyWorld).2,
        c.isStorage = false ∧ c.isStoreWrite = false :=
  ⟨rfl, rfl,
    (manageState_noop (restoreEnv failedWorkspace) exampleDecls failedWorkspace emptyWorld
      rfl rfl).2⟩

/-- C15. For every secret whose data has no entry under the key `tfstate`,
`readState` returns an error and no state; when that is the state secret as
stored by the ownership update, `manageState` returns that error with the
input workspace unchanged (its `Outputs` and `BackupSerial` included) and
without contacting the remote storage, hence without a backup. -/
theorem manageState_missing_tfstate (E : Env) (K : Decls) (ws : Workspace) (w : World)
    (secret owned stored : Secret)
    (hget : E.GetSecret w.calls ws.Namespace (K.StateSecretName ws) = .ok secret)
    (hown : E.SetOwnerReference ws secret = .ok owned)
    (hupd : E.UpdateSecret
      (w.record (Call.GetSecret ws.Namespace (K.StateSecretName ws))).calls owned = (stored, none))
    (hkey : stored.Data.lookup "tfstate" = none) :
    (∀ s : Secret, s.Data.lookup "tfstate" = none →
        readState E s = .error (Err.other "Expected key tfstate not found in state secret")) ∧
      manageState E K ws w =
        ((ws, some (Err.other "Expected key tfstate not found in state secret")),
          (w.record (Call.GetSecret ws.Namespace (K.StateSecretName ws))).record
            (Call.UpdateSecret owned)) ∧
      ∀ c ∈ callsSince w (manageState E K ws w).2, c.isStorage = false := by
  have hread : ∀ s : Secret, s.Data.lookup "tfstate" = none →
      readState E s = .error (Err.other "Expected key tfstate not found in state secret") := by
    intro s hs
    unfold readState
    rw [hs]
  have hres : manageState E K ws w =
      ((ws, some (Err.other "Expected key tfstate not found in state secret")),
        (w.record (Call.GetSecret ws.Namespace (K.StateSecretName ws))).record
          (Call.UpdateSecret owned)) := by
    unfold manageState
    simp only [hget, hown, hupd, hread stored hkey]
  refine ⟨hread, hres, ?_⟩
  rw [hres]
  simp [callsSince, record_calls, Call.isStorage]

/-- C15 at a concrete input: the state secret of the workspace holds no
data. -/
theorem manageState_missing_tfstate_witness :
    emptySecret.Data.lookup "tfstate" = none ∧
      (manageState (emptySecretEnv exampleWorkspace) exampleDecls exampleWorkspace
          emptyWorld).1.2 =
        some (Err.other "Expected key tfstate not found in state secret") ∧
      ∀ c ∈ callsSince emptyWorld
          (manageState (emptySecretEnv exampleWorkspace) exampleDecls exampleWorkspace
            emptyWorld).2, c.isStorage = false :=
  ⟨rfl, rfl,
    (manageState_missing_tfstate (emptySecretEnv exampleWorkspace) exampleDecls
      exampleWorkspace emptyWorld emptySecret
      { emptySecret with OwnerReferences := ["workspace-1"] }
      { emptySecret with OwnerReferences := ["workspace-1"] } rfl rfl rfl rfl).2.2⟩

/-! ### Handlers -/

/-- C16. For every run name and every watch event that carries a workspace
and is not of type Deleted, the condition built by `IsQueued` returns
(true, nil) if the run name equals `Status.Active` or occurs in
`Status.Queue`, and (false, nil) otherwise; for every event of type Deleted,
whatever it carries, it returns false together with
`ErrResourceUnexpectedlyDeleted` (`slice.ContainsString` telling whether the
string occurs in the slice). -/
theorem IsQueued_spec (K : Decls) (runName : String) (ty : EventType) (ws : Workspace)
    (obj : EventObject)
    (hcontains : ∀ (slice : List String) (s : String), K.ContainsString slice s = true ↔ s ∈ slice) :
    IsQueued K runName ⟨ty, EventObject.workspace ws⟩ =
        (if ty = Deleted then (false, some Err.ErrResourceUnexpectedlyDeleted)
         else (decide (ws.Status.Active = runName ∨ runName ∈ ws.Status.Queue), none)) ∧
      IsQueued K runName ⟨Deleted, obj⟩ = (false, some Err.ErrResourceUnexpectedlyDeleted) := by
  constructor
  · unfold IsQueued workspaceHandlerWrapper
    by_cases hd : ty = Deleted
    · simp [hd]
    · simp only [hd, if_false]
      by_cases ha : ws.Status.Active = runName
      · simp [ha]
      · by_cases hq : runName ∈ ws.Status.Queue
        · simp [ha, hq, (hcontains _ _).2 hq]
        · have hf : K.ContainsString ws.Status.Queue runName = false := by
            cases h : K.ContainsString ws.Status.Queue runName
            · rfl
            · exact absurd ((hcontains _ _).1 h) hq
          simp [ha, hq, hf]
  · unfold IsQueued workspaceHandlerWrapper
    simp

/-- C16 at a concrete input: a modified workspace whose queue holds `run-1`,
and the deletion of that workspace. -/
theorem IsQueued_spec_witness :
    IsQueued exampleDecls "run-1" ⟨"MODIFIED", EventObject.workspace (queuedWorkspace ["run-1"])⟩ =
        (true, none) ∧
      IsQueued exampleDecls "run-2" ⟨"MODIFIED", EventObject.workspace (queuedWorkspace ["run-1"])⟩ =
        (false, none) ∧
      IsQueued exampleDecls "run-1" ⟨Deleted, EventObject.workspace (queuedWorkspace ["run-1"])⟩ =
        (false, some Err.ErrResourceUnexpectedlyDeleted) :=
  ⟨(IsQueued_spec exampleDecls "run-1" "MODIFIED" (queuedWorkspace ["run-1"])
      EventObject.other (fun slice s => by simp [exampleDecls])).1,
    by decide, by decide⟩

/-! ### The chain and the deletion of a workspace -/

/-- C17, the code at the failing input: `NewWorkspaceReconciler` appends to
the package variable. Called on the empty chain it leaves the seven steps in
their order; called a second time it leaves fourteen steps, the seven of the
first reconciler followed by the seven of the second, so that each step
occurs twice in what `Reconcile` iterates over. -/
theorem NewWorkspaceReconciler_twice (E E2 : Env) (K : Decls) (image image2 : String) :
    NewWorkspaceReconciler E K image [] =
        [manageVariables E K, manageRBAC E K, manageState E K, managePVC E K,
          managePod E K image, manageQueue E, managePhaseStep K] ∧
      NewWorkspaceReconciler E2 K image2 (NewWorkspaceReconciler E K image []) =
        [manageVariables E K, manageRBAC E K, manageState E K, managePVC E K,
          managePod E K image, manageQueue E, managePhaseStep K,
          manageVariables E2 K, manageRBAC E2 K, manageState E2 K, managePVC E2 K,
          managePod E2 K image2, manageQueue E2, managePhaseStep K] ∧
      (NewWorkspaceReconciler E2 K image2 (NewWorkspaceReconciler E K image [])).length = 14 :=
  ⟨rfl, rfl, rfl⟩

/-- C18. When the fetched workspace has a non-zero deletion timestamp,
`Reconcile` ceases reconciliation: whatever the chain, it calls nothing
after the fetch but, if the phase is not Deleting yet, one status update of
the fetched workspace with the phase set to Deleting and nothing else
changed; it returns the error of that update, and nil when there is none. -/
theorem Reconcile_deleting (E : Env) (K : Decls) (chain : List workspaceUpdater)
    (ns name : String) (w : World) (ws : Workspace)
    (hget : E.GetWorkspace w.calls ns name = .ok ws)
    (hdel : IsZero ws.DeletionTimestamp = false) :
    Reconcile E K chain ns name w =
      if ws.Status.Phase ≠ WorkspacePhaseDeleting then
        ((E.StatusUpdate (w.record (Call.GetWorkspace ns name)).calls
            { ws with Status := { ws.Status with Phase := WorkspacePhaseDeleting } }).2,
          (w.record (Call.GetWorkspace ns name)).record
            (Call.StatusUpdate
              { ws with Status := { ws.Status with Phase := WorkspacePhaseDeleting } }))
      else (none, w.record (Call.GetWorkspace ns name)) := by
  unfold Reconcile
  simp only [hget, hdel]
  by_cases hp : ws.Status.Phase = WorkspacePhaseDeleting
  · simp [hp]
  · simp only [ne_eq, hp, not_false_eq_true, if_true]
    cases (E.StatusUpdate (w.record (Call.GetWorkspace ns name)).calls
      { ws with Status := { ws.Status with Phase := WorkspacePhaseDeleting } }).2 <;> rfl

/-- C18 at a concrete input: the workspace is being deleted and its stored
phase is Ready; the one call after the fetch is the status update to
Deleting, finalizers and annotations as fetched. -/
theorem Reconcile_deleting_witness :
    IsZero deletingWorkspace.DeletionTimestamp = false ∧
      Reconcile (exampleEnv deletingWorkspace []) exampleDecls
          (NewWorkspaceReconciler (exampleEnv deletingWorkspace []) exampleDecls "etok" [])
          "default" "workspace-1" emptyWorld =
        (none,
          (emptyWorld.record (Call.GetWorkspace "default" "workspace-1")).record
            (Call.StatusUpdate
              { deletingWorkspace with
                Status := { deletingWorkspace.Status with Phase := WorkspacePhaseDeleting } })) :=
  ⟨rfl,
    Reconcile_deleting (exampleEnv deletingWorkspace []) exampleDecls
      (NewWorkspaceReconciler (exampleEnv deletingWorkspace []) exampleDecls "etok" [])
      "default" "workspace-1" emptyWorld deletingWorkspace rfl rfl⟩

/-! ### Approval pruning as a filter -/

/-- C19, counterexample: the workspace carries the approval of `run-1` with
the value `yes` and `run-1` is listed as running. `pruneApprovals` returns a
non-nil map in which that key has the value `approved`, which is no entry of
the original annotations. -/
theorem pruneApprovals_rewrites_value :
    ∃ result,
      (pruneApprovals (exampleEnv exampleWorkspace [exampleRun]) exampleDecls
        { exampleWorkspace with Annotations := some yesApproved } emptyWorld).1.1 =
          some result ∧
      result.lookup "approvals.etok.dev/run-1" = some "approved" ∧
      yesApproved.lookup "approvals.etok.dev/run-1" = some "yes" ∧
      yesApproved.lookup "approvals.etok.dev/run-1" ≠
        result.lookup "approvals.etok.dev/run-1" :=
  ⟨_, rfl, by decide, by decide, by decide⟩

/-- C19, amended. Whenever `pruneApprovals` returns a non-nil map, every key
of that map is a key of the original annotations of the workspace. The
approval annotation key of a listed run that is not completed, when the
workspace carries it, is in the map with the value `approved`, whatever value
it had; any other key is in the map exactly when it is a key of the original
annotations without the approval prefix, and then with its original value. -/
theorem pruneApprovals_entries (E : Env) (K : Decls) (ws : Workspace) (w : World)
    (result : StringMap) (hres : (pruneApprovals E K ws w).1.1 = some result) :
    ∃ anns runs, ws.Annotations = some anns ∧ E.ListRuns w.calls ws.Namespace = .ok runs ∧
      (∀ k, k ∈ result → k ∈ anns) ∧
      ∀ k, result.lookup k =
        if k ∈ anns ∧
            ∃ run ∈ runs, run.Phase ≠ RunPhaseCompleted ∧ K.ApprovedAnnotationKey run = k then
          some "approved"
        else if HasPrefix k K.ApprovedAnnotationKeyPrefix = true then none
        else anns.lookup k := by
  unfold pruneApprovals at hres
  cases hanns : ws.Annotations with
  | none => simp [hanns] at hres
  | some anns =>
    simp only [hanns] at hres
    split at hres
    · simp at hres
    · cases hlist : E.ListRuns w.calls ws.Namespace with
      | error err => simp [hlist] at hres
      | ok runs =>
        simp only [hlist, Option.some.injEq] at hres
        have hlookup : ∀ k, result.lookup k =
            if k ∈ anns ∧
                ∃ run ∈ runs, run.Phase ≠ RunPhaseCompleted ∧ K.ApprovedAnnotationKey run = k then
              some "approved"
            else if HasPrefix k K.ApprovedAnnotationKeyPrefix = true then none
            else anns.lookup k := by
          intro k
          rw [← hres]
          unfold readdApprovals copyWithoutApprovals
          rw [readdFold_lookup, copyFold_lookup K _ anns.nodupKeys]
          have hcond : (∃ r ∈ runs, r.Phase ≠ RunPhaseCompleted ∧
                HasAnnotation ws (K.ApprovedAnnotationKey r) = true ∧
                K.ApprovedAnnotationKey r = k) ↔
              (k ∈ anns ∧
                ∃ run ∈ runs, run.Phase ≠ RunPhaseCompleted ∧
                  K.ApprovedAnnotationKey run = k) := by
            constructor
            · rintro ⟨r, hm, hp, ha, he⟩
              have hin : K.ApprovedAnnotationKey r ∈ anns := by
                simpa [ HasAnnotation, hanns] using ha
              exact ⟨he ▸ hin, r, hm, hp, he⟩
            · rintro ⟨hin, r, hm, hp, he⟩
              refine ⟨r, hm, hp, ?_, he⟩
              have hin2 : K.ApprovedAnnotationKey r ∈ anns := he ▸ hin
              simpa [ HasAnnotation, hanns] using hin2
          by_cases hc : k ∈ anns ∧
              ∃ run ∈ runs, run.Phase ≠ RunPhaseCompleted ∧ K.ApprovedAnnotationKey run = k
          · rw [if_pos (hcond.2 hc), if_pos hc]
          · rw [if_neg (fun h => hc (hcond.1 h)), if_neg hc]
            by_cases hp : HasPrefix k K.ApprovedAnnotationKeyPrefix = true
            · rw [if_pos hp, if_neg (fun h => by rw [hp] at h; exact Bool.noConfusion h.1)]
              rfl
            · rw [if_neg hp]
              by_cases hin : k ∈ anns.entries.keys
              · rw [if_pos ⟨by simpa using hp, hin⟩]
                rfl
              · rw [if_neg (fun h => hin h.2)]
                have hnone : anns.lookup k = none := AList.lookup_eq_none.2 hin
                rw [hnone]
                rfl
        refine ⟨anns, runs, rfl, rfl, ?_, hlookup⟩
        intro k hk
        rw [← AList.lookup_isSome, hlookup k] at hk
        by_cases hc : k ∈ anns ∧
            ∃ run ∈ runs, run.Phase ≠ RunPhaseCompleted ∧ K.ApprovedAnnotationKey run = k
        · exact hc.1
        · rw [if_neg hc] at hk
          by_cases hp : HasPrefix k K.ApprovedAnnotationKeyPrefix = true
          · rw [if_pos hp] at hk
            simp at hk
          · rw [if_neg hp] at hk
            exact AList.lookup_isSome.1 hk

/-- C19, amended, at a concrete input: the workspace carries `foo: bar` and
the approval of `run-1` with the value `yes`, and `run-1` is running. The
returned map holds `foo: bar` and the approval with the value `approved`. -/
theorem pruneApprovals_entries_witness :
    fooBarYes.lookup "approvals.etok.dev/run-1" = some "yes" ∧
      ∃ result,
        (pruneApprovals (exampleEnv exampleWorkspace [exampleRun]) exampleDecls
          { exampleWorkspace with Annotations := some fooBarYes } emptyWorld).1.1 =
            some result ∧
        result.lookup "approvals.etok.dev/run-1" = some "approved" ∧
        result.lookup "foo" = some "bar" ∧
        ∀ k, k ∈ result → k ∈ fooBarYes := by
  refine ⟨by decide, _, rfl, ?_⟩
  obtain ⟨anns, runs, h1, h2, h3, h4⟩ :=
    pruneApprovals_entries (exampleEnv exampleWorkspace [exampleRun]) exampleDecls
      { exampleWorkspace with Annotations := some fooBarYes } emptyWorld _ rfl
  have ha : anns = fooBarYes := (Option.some.inj h1).symm
  have hr : runs = [exampleRun] := (Except.ok.inj h2).symm
  subst ha hr
  refine ⟨?_, ?_, h3⟩
  · rw [h4]
    decide
  · rw [h4]
    decide

/-! ### Phase aggregation and the order of the conditions -/

/-- The loop of `managePhase` returns the workspace with the phase set and
nothing else changed. -/
theorem managePhaseLoop_frame (K : Decls) (ws : Workspace) (conds : List Condition) :
    ∀ phase, (managePhaseLoop K ws conds phase).1 =
      { ws with Status := { ws.Status with
          Phase := (managePhaseLoop K ws conds phase).1.Status.Phase } } := by
  induction conds with
  | nil => intro phase; rfl
  | cons c rest ih =>
    intro phase
    unfold managePhaseLoop
    split_ifs <;> first | rfl | exact ih _

/-- C20. The phase computed by `managePhase` does not depend on the order of
the conditions: on every permutation of the condition list of a workspace
`managePhase` yields the same `Status.Phase`; and it returns the workspace
with no field changed other than `Status.Phase`. -/
theorem managePhase_perm (K : Decls) (ws : Workspace) (conds : List Condition)
    (hperm : conds.Perm ws.Status.Conditions) :
    (managePhase K { ws with Status := { ws.Status with Conditions := conds } }).1.Status.Phase =
        (managePhase K ws).1.Status.Phase ∧
      (managePhase K ws).1 =
        { ws with Status := { ws.Status with Phase := (managePhase K ws).1.Status.Phase } } := by
  refine ⟨?_, managePhaseLoop_frame K ws _ _⟩
  unfold managePhase
  rw [managePhaseLoop_phase, managePhaseLoop_phase]
  have hT : (∃ c ∈ conds, c.Status = ConditionTrue) ↔
      ∃ c ∈ ws.Status.Conditions, c.Status = ConditionTrue :=
    ⟨fun ⟨c, hm, h⟩ => ⟨c, hperm.mem_iff.1 hm, h⟩, fun ⟨c, hm, h⟩ => ⟨c, hperm.mem_iff.2 hm, h⟩⟩
  have hU : (∃ c ∈ conds, c.Status = ConditionUnknown) ↔
      ∃ c ∈ ws.Status.Conditions, c.Status = ConditionUnknown :=
    ⟨fun ⟨c, hm, h⟩ => ⟨c, hperm.mem_iff.1 hm, h⟩, fun ⟨c, hm, h⟩ => ⟨c, hperm.mem_iff.2 hm, h⟩⟩
  have hP : (∃ c ∈ conds, c.Status = ConditionFalse ∧ c.Reason = K.pendingReason) ↔
      ∃ c ∈ ws.Status.Conditions, c.Status = ConditionFalse ∧ c.Reason = K.pendingReason :=
    ⟨fun ⟨c, hm, h⟩ => ⟨c, hperm.mem_iff.1 hm, h⟩, fun ⟨c, hm, h⟩ => ⟨c, hperm.mem_iff.2 hm, h⟩⟩
  simp only [hT, hU, hP]

/-- C20 at a concrete input: an Unknown condition before or after a pending
one gives the phase Unknown. -/
theorem managePhase_perm_witness :
    (managePhase exampleDecls { exampleWorkspace with
        Status := { exampleWorkspace.Status with
          Conditions := [⟨"PodFailure", ConditionUnknown, "Unknown", ""⟩,
            ⟨"CacheFailure", ConditionFalse, "Pending", ""⟩] } }).1.Status.Phase =
        WorkspacePhaseUnknown ∧
      (managePhase exampleDecls { exampleWorkspace with
        Status := { exampleWorkspace.Status with
          Conditions := [⟨"CacheFailure", ConditionFalse, "Pending", ""⟩,
            ⟨"PodFailure", ConditionUnknown, "Unknown", ""⟩] } }).1.Status.Phase =
        WorkspacePhaseUnknown :=
  ⟨by decide,
    ((managePhase_perm exampleDecls
      { exampleWorkspace with
        Status := { exampleWorkspace.Status with
          Conditions := [⟨"PodFailure", ConditionUnknown, "Unknown", ""⟩,
            ⟨"CacheFailure", ConditionFalse, "Pending", ""⟩] } }
      [⟨"CacheFailure", ConditionFalse, "Pending", ""⟩,
        ⟨"PodFailure", ConditionUnknown, "Unknown", ""⟩]
      (List.Perm.swap _ _ _)).1).trans (by decide)⟩

/-! ### The outputs of the state -/

/-- After the block that persists the outputs, the outputs of the workspace
are those built from the decoded state. -/
theorem persistOutputs_outputs (ws : Workspace) (state : State) :
    (persistOutputs ws state).Status.Outputs = stateOutputs state := by
  unfold persistOutputs
  split
  · rfl
  · rename_i h
    exact not_not.1 h

/-- Whatever its outcome, `backup` leaves the outputs of the workspace as
they are. -/
theorem backup_outputs (E : Env) (K : Decls) (ws : Workspace) (secret : Secret) (sfile : State)
    (w : World) :
    (backup E K ws secret sfile w).1.1.Status.Outputs = ws.Status.Outputs := by
  unfold backup
  rcases storageClient E w with ⟨r, w0⟩
  cases r <;> simp only <;> (repeat' split) <;>
    simp [backupFailure, backupOK, setCondition]

/-- The outputs built from a decoded state hold exactly the pairs of a name
and the value of the output of that name, sensitive or not. -/
theorem mem_stateOutputs (state : State) (out : Output) :
    out ∈ stateOutputs state ↔
      ∃ o, state.Outputs.lookup out.Key = some o ∧ out.Value = o.Value := by
  unfold stateOutputs
  rw [List.mem_map]
  constructor
  · rintro ⟨⟨k, o⟩, hm, rfl⟩
    exact ⟨o, AList.mem_lookup_iff.2 hm, rfl⟩
  · rintro ⟨o, hl, hv⟩
    refine ⟨⟨out.Key, o⟩, AList.mem_lookup_iff.1 hl, ?_⟩
    cases out
    simp only at hv
    simp [hv]

/-- The outputs built from a decoded state hold no name twice. -/
theorem stateOutputs_keys (state : State) :
    ((stateOutputs state).map Output.Key).Nodup := by
  have h : (stateOutputs state).map Output.Key = state.Outputs.keys := by
    unfold stateOutputs
    rw [List.map_map]
    rfl
  rw [h]
  exact state.Outputs.keys_nodup

/-- C21. Whenever `manageState` reads an existing state secret successfully
(secret found, owned, updated and decoded), the `Status.Outputs` of the
workspace it returns are the outputs built from the decoded state: an entry
{Key, Value} is among them if and only if the state has an output of that
name with that value, whether marked sensitive or not, and no name occurs
twice. This holds whether no backup is due, the backup succeeds or the backup
fails. -/
theorem manageState_outputs (E : Env) (K : Decls) (ws : Workspace) (w : World)
    (secret owned stored : Secret) (state : State)
    (hget : E.GetSecret w.calls ws.Namespace (K.StateSecretName ws) = .ok secret)
    (hown : E.SetOwnerReference ws secret = .ok owned)
    (hupd : E.UpdateSecret
      (w.record (Call.GetSecret ws.Namespace (K.StateSecretName ws))).calls owned = (stored, none))
    (hread : readState E stored = .ok state) :
    (manageState E K ws w).1.1.Status.Outputs = stateOutputs state ∧
      (∀ out : Output, out ∈ (manageState E K ws w).1.1.Status.Outputs ↔
        ∃ o, state.Outputs.lookup out.Key = some o ∧ out.Value = o.Value) ∧
      ((manageState E K ws w).1.1.Status.Outputs.map Output.Key).Nodup := by
  have hout : (manageState E K ws w).1.1.Status.Outputs = stateOutputs state := by
    unfold manageState
    simp only [hget, hown, hupd, hread]
    split
    · rw [backup_outputs, persistOutputs_outputs]
    · exact persistOutputs_outputs ws state
  refine ⟨hout, ?_, ?_⟩
  · intro out
    rw [hout]
    exact mem_stateOutputs state out
  · rw [hout]
    exact stateOutputs_keys state

/-- C21 at a concrete input: the state has the outputs `url` and `password`,
the latter sensitive, and the backup that follows fails as no storage client
can be created; the returned workspace carries both outputs. -/
theorem manageState_outputs_witness :
    (manageState (outputsEnv exampleWorkspace) exampleDecls exampleWorkspace emptyWorld).1.2 =
        some (Err.other "could not find default credentials") ∧
      (manageState (outputsEnv exampleWorkspace) exampleDecls exampleWorkspace
          emptyWorld).1.1.Status.Outputs =
        [⟨"password", "hunter2"⟩, ⟨"url", "https://example.com"⟩] :=
  ⟨rfl,
    (manageState_outputs (outputsEnv exampleWorkspace) exampleDecls exampleWorkspace
      emptyWorld exampleSecret { exampleSecret with OwnerReferences := ["workspace-1"] }
      { exampleSecret with OwnerReferences := ["workspace-1"] } outputsState
      rfl rfl rfl rfl).1⟩

end Etok
